import Mathlib

/-!
Verification of the proxy core of thrustOauth2idServer.

This development shallowly embeds the Go source of the repository's proxy
cache, sendfile interceptor, upstream supervisor and socket-path helpers,
and proves the frozen claims about them.  Machine integers are modelled as
`Nat`/`Int` with explicit reductions modulo 2 to the 64 where overflow
matters.  Go standard-library functions that the source calls
(`regexp` word-boundary matching, `net/textproto` canonical header keys,
`net/url` query normalisation, `strconv.Atoi`, `encoding/gob`) are modelled
alongside, each with a doc comment saying what it models.
-/

set_option maxRecDepth 4000

/-- UTF-8 encoding of one character as its list of bytes. -/
def utf8Char (c : Char) : List Nat :=
  let n := c.toNat
  if n < 0x80 then [n]
  else if n < 0x800 then [0xC0 + n / 64, 0x80 + n % 64]
  else if n < 0x10000 then [0xE0 + n / 4096, 0x80 + n / 64 % 64, 0x80 + n % 64]
  else [0xF0 + n / 262144, 0x80 + n / 4096 % 64, 0x80 + n / 64 % 64, 0x80 + n % 64]

/-- Bytes of a Go string (Go strings are UTF-8 byte sequences). -/
def utf8Bytes (s : String) : List Nat :=
  s.data.flatMap utf8Char

/-- One step of 64-bit FNV-1: multiply by the FNV prime modulo 2 to the 64, then xor the byte.
Models the `Write` loop of `hash/fnv.New64`. -/
def fnv64Step (h b : Nat) : Nat :=
  (h * 1099511628211 % 2 ^ 64) ^^^ b

/-- 64-bit FNV-1 hash of a byte sequence, as used by `Variant.CacheKey`. -/
def fnv64 (bytes : List Nat) : Nat :=
  bytes.foldl fnv64Step 14695981039346656037

/-- Word character for Go regexp word boundaries: ASCII alphanumeric or underscore. -/
def isGoWordChar (c : Char) : Bool :=
  c.isAlphanum || c == Char.ofNat 95

/-- Models Go `unicode.IsSpace`: the Unicode white-space code points. -/
def goIsSpace (c : Char) : Bool :=
  let n := c.toNat
  n == 9 || n == 10 || n == 11 || n == 12 || n == 13 || n == 32 ||
  n == 0x85 || n == 0xA0 || n == 0x1680 ||
  (0x2000 ≤ n && n ≤ 0x200A) || n == 0x2028 || n == 0x2029 ||
  n == 0x202F || n == 0x205F || n == 0x3000

/-- Models Go `strings.TrimSpace`. -/
def strTrimSpace (s : String) : String :=
  ⟨((s.data.dropWhile goIsSpace).reverse.dropWhile goIsSpace).reverse⟩

/-- Models Go `strings.Contains`. -/
def strContainsSub (s sub : String) : Bool :=
  (List.range (s.data.length + 1)).any (fun i => sub.data.isPrefixOf (s.data.drop i))

/-- Models Go `strings.HasPrefix`. -/
def strHasPrefix (s pre : String) : Bool :=
  pre.data.isPrefixOf s.data

/-- Models Go `strings.TrimPrefix` under the assumption the prefix is present:
drops that many leading characters. -/
def strDropPrefix (s pre : String) : String :=
  ⟨s.data.drop pre.data.length⟩

/-- Valid bytes of an HTTP header field name (`net/textproto` token characters). -/
def isHeaderTokenChar (c : Char) : Bool :=
  c.isAlphanum ||
  [33, 35, 36, 37, 38, 39, 42, 43, 45, 46, 94, 95, 96, 124, 126].contains c.toNat

/-- Case-folding pass of `textproto.CanonicalMIMEHeaderKey`: uppercase after a
start of word or a dash, lowercase otherwise. -/
def canonicalChars : Bool → List Char → List Char
  | _, [] => []
  | upper, c :: rest =>
    let c2 := if upper then c.toUpper else c.toLower
    c2 :: canonicalChars (c2 == Char.ofNat 45) rest

/-- Models Go `http.CanonicalHeaderKey`: canonical capitalisation when every
character is a valid header token character, the input unchanged otherwise. -/
def canonicalHeaderKey (s : String) : String :=
  if s.data.all isHeaderTokenChar then ⟨canonicalChars true s.data⟩ else s

/-- Go `http.Header`, modelled as an association list from canonical keys to
value lists (a Go map cannot hold duplicate keys; iteration order of the model
is the list order). -/
abbrev Header := List (String × List String)

/-- Models `http.Header.Get`: first value stored under the canonical key, or empty. -/
def headerGet (h : Header) (key : String) : String :=
  match h.lookup (canonicalHeaderKey key) with
  | some (v :: _) => v
  | _ => ""

/-- Models `http.Header.Values`: all values stored under the canonical key. -/
def headerValues (h : Header) (key : String) : List String :=
  (h.lookup (canonicalHeaderKey key)).getD []

/-- Models `http.Header.Del`: remove the canonical key. -/
def headerDel (h : Header) (key : String) : Header :=
  h.filter (fun p => p.1 != canonicalHeaderKey key)

/-- Models `http.Header.Set`: replace the canonical key's values with a single value. -/
def headerSet (h : Header) (key value : String) : Header :=
  if (h.lookup (canonicalHeaderKey key)).isSome then
    h.map (fun p => if p.1 == canonicalHeaderKey key then (p.1, [value]) else p)
  else h ++ [(canonicalHeaderKey key, [value])]

/-- Direct map assignment `h[k] = vs` (no canonicalisation), as done by
`copyHeaders` in the cacheable response. -/
def headerSetRaw (h : Header) (key : String) (vals : List String) : Header :=
  if (h.lookup key).isSome then
    h.map (fun p => if p.1 == key then (p.1, vals) else p)
  else h ++ [(key, vals)]

/-- Whether position `i` of `s` holds a word character. -/
def wordAt (s : List Char) (i : Nat) : Bool :=
  match s.get? i with
  | some c => isGoWordChar c
  | none => false

/-- Go regexp word boundary at position `i` of `s`: word-ness changes between
the previous character and the current one. -/
def boundaryAt (s : List Char) (i : Nat) : Bool :=
  (if i == 0 then false else wordAt s (i - 1)) != wordAt s i

/-- Match of a fixed token with word boundaries on both sides at position `i`. -/
def matchTokenAt (tok s : List Char) (i : Nat) : Bool :=
  tok.isPrefixOf (s.drop i) && boundaryAt s i && boundaryAt s (i + tok.length)

/-- Models `regexp.MatchString` for the patterns of the cache code that are a
word-bounded literal token, such as the `public` and `no-cache` expressions. -/
def hasWordToken (tok : String) (s : String) : Bool :=
  (List.range (s.data.length + 1)).any (fun i => matchTokenAt tok.data s.data i)

/-- Digits captured by a pattern `literal(\d+)` with word boundaries on both
ends, anchored at position `i`; `none` when the pattern does not match there.
A shorter digit run can never rescue a failed trailing boundary (two adjacent
digits are never a boundary), so the maximal run is the only candidate. -/
def numMatchAt (lit s : List Char) (i : Nat) : Option (List Char) :=
  if lit.isPrefixOf (s.drop i) && boundaryAt s i then
    let ds := (s.drop (i + lit.length)).takeWhile Char.isDigit
    if ds.isEmpty then none
    else if boundaryAt s (i + lit.length + ds.length) then some ds else none
  else none

/-- Models `regexp.FindStringSubmatch` for the `s-max-age`/`max-age` patterns:
the digits of the leftmost match of the word-bounded literal-plus-digits
pattern. -/
def findNumToken (lit : String) (s : String) : Option (List Char) :=
  (List.range (s.data.length + 1)).findSome? (fun i => numMatchAt lit.data s.data i)

/-- Numeric value of a digit string. -/
def digitsToNat (ds : List Char) : Nat :=
  ds.foldl (fun a c => a * 10 + (c.toNat - 48)) 0

/-- Models Go `strconv.Atoi` on the digit capture of the max-age patterns:
errors (`none`) when the value overflows a 64-bit signed int. -/
def goAtoiDigits (ds : List Char) : Option Int :=
  if ds.isEmpty then none
  else if digitsToNat ds ≤ 9223372036854775807 then some (digitsToNat ds) else none

/-- The stashing writer of the cacheable response: mirrors output into a
bounded buffer, marking overflow once the limit would be exceeded. -/
structure StashingWriter where
  limit : Int
  buffer : List Nat
  overflowed : Bool
deriving Repr, DecidableEq

/-- Models `NewStashingWriter`. -/
def NewStashingWriter (limit : Int) : StashingWriter :=
  ⟨limit, [], false⟩

/-- Models `stashingWriter.Write` on the buffering side: mark overflow when the
buffer would exceed the limit, otherwise append (the pass-through write to the
destination is handled by the capture semantics). -/
def StashingWriter.WriteS (w : StashingWriter) (p : List Nat) : StashingWriter :=
  if (w.buffer.length : Int) + p.length > w.limit then { w with overflowed := true }
  else { w with buffer := w.buffer ++ p }

/-- Models `stashingWriter.Body`: nil once overflowed, else the buffer. -/
def StashingWriter.BodyS (w : StashingWriter) : List Nat :=
  if w.overflowed then [] else w.buffer

/-- The exported fields of `CacheableResponse` (the ones the gob encoding
serialises). -/
structure CacheableResponse where
  StatusCode : Int
  HttpHeader : Header
  Body : List Nat
  VariantHeader : Header
deriving Repr, DecidableEq

/-- Models `CacheableResponse.CacheStatus`, with the stashing writer passed
explicitly and `time.Now()` as the integer `now` (seconds); the zero
`time.Time` is modelled as 0. -/
def CacheableResponse.CacheStatus (c : CacheableResponse) (stasher : StashingWriter)
    (now : Int) : Bool × Int :=
  if stasher.overflowed then (false, 0)
  else if c.StatusCode < 200 || c.StatusCode > 399 || c.StatusCode == 304 then (false, 0)
  else if strContainsSub (headerGet c.HttpHeader "Vary") "*" then (false, 0)
  else
    if !(hasWordToken "public" (headerGet c.HttpHeader "Cache-Control")) ||
        hasWordToken "no-cache" (headerGet c.HttpHeader "Cache-Control") then (false, 0)
    else
      match
        match findNumToken "s-max-age=" (headerGet c.HttpHeader "Cache-Control") with
        | some ds => some ds
        | none => findNumToken "max-age=" (headerGet c.HttpHeader "Cache-Control") with
      | none => (false, 0)
      | some ds =>
        match goAtoiDigits ds with
        | none => (false, 0)
        | some maxAge => if maxAge ≤ 0 then (false, 0) else (true, now + maxAge)

example : hasWordToken "public" "public, max-age=60" = true := by decide
example : hasWordToken "public" "notpublic, max-age=60" = false := by decide
example : hasWordToken "no-cache" "public, no-cache, max-age=60" = true := by decide
example : findNumToken "max-age=" "public, max-age=60" = some ['6', '0'] := by decide
example : findNumToken "s-max-age=" "public, max-age=60" = none := by decide
example : findNumToken "s-max-age=" "s-max-age=30, max-age=60" = some ['3', '0'] := by decide
example : findNumToken "max-age=" "s-max-age=30, max-age=60" = some ['3', '0'] := by decide
example : findNumToken "max-age=" "max-age=10x" = none := by decide
example : canonicalHeaderKey "accept-encoding" = "Accept-Encoding" := by decide
example :
    (CacheableResponse.CacheStatus
      ⟨200, [("Cache-Control", ["public, max-age=60"])], [], []⟩
      (NewStashingWriter 100) 5) = (true, 65) := by decide
example :
    (CacheableResponse.CacheStatus
      ⟨200, [("Cache-Control", ["public, max-age=0"])], [], []⟩
      (NewStashingWriter 100) 5).1 = false := by decide

/-- Claim C1: `CacheStatus` reports cacheable only when, in order: the body
buffer did not overflow, the status code is in [200,399] and not 304, the
Vary header does not contain `*`, Cache-Control matches the word `public` and
not `no-cache`, and Cache-Control carries `s-max-age=<n>` or else `max-age=<n>`
with a positive integer `n`, in which case the expiry is now plus n seconds;
moreover `Cache-Control: public, max-age=0` is never cacheable and the
presence of `no-cache` is disqualifying on its own. -/
theorem claim_C1 :
    (∀ (c : CacheableResponse) (st : StashingWriter) (now : Int),
      (c.CacheStatus st now).1 = true →
        st.overflowed = false ∧
        (200 ≤ c.StatusCode ∧ c.StatusCode ≤ 399 ∧ c.StatusCode ≠ 304) ∧
        strContainsSub (headerGet c.HttpHeader "Vary") "*" = false ∧
        hasWordToken "public" (headerGet c.HttpHeader "Cache-Control") = true ∧
        hasWordToken "no-cache" (headerGet c.HttpHeader "Cache-Control") = false ∧
        ∃ ds n,
          (findNumToken "s-max-age=" (headerGet c.HttpHeader "Cache-Control") = some ds ∨
            (findNumToken "s-max-age=" (headerGet c.HttpHeader "Cache-Control") = none ∧
              findNumToken "max-age=" (headerGet c.HttpHeader "Cache-Control") = some ds)) ∧
          goAtoiDigits ds = some n ∧ 0 < n ∧ (c.CacheStatus st now).2 = now + n) ∧
    (∀ (c : CacheableResponse) (st : StashingWriter) (now : Int),
      headerGet c.HttpHeader "Cache-Control" = "public, max-age=0" →
        (c.CacheStatus st now).1 = false) ∧
    (∀ (c : CacheableResponse) (st : StashingWriter) (now : Int),
      hasWordToken "no-cache" (headerGet c.HttpHeader "Cache-Control") = true →
        (c.CacheStatus st now).1 = false) := by
  refine ⟨?_, ?_, ?_⟩
  · intro c st now hc
    unfold CacheableResponse.CacheStatus at hc
    split_ifs at hc with h1 h2 h3 h4
    have h2' := h2
    simp only [Bool.or_eq_true, decide_eq_true_eq, beq_iff_eq, not_or, not_lt] at h2'
    have h4' := h4
    simp only [Bool.or_eq_true, Bool.not_eq_true, Bool.not_eq_true', not_or] at h4'
    rcases hs : findNumToken "s-max-age=" (headerGet c.HttpHeader "Cache-Control") with _ | ds
    · rcases hm : findNumToken "max-age=" (headerGet c.HttpHeader "Cache-Control") with _ | ds
      · simp [hs, hm] at hc
      rcases ha : goAtoiDigits ds with _ | n
      · simp [hs, hm, ha] at hc
      by_cases hn : n ≤ 0
      · simp [hs, hm, ha, hn] at hc
      refine ⟨by simpa using h1, ⟨h2'.1.1, h2'.1.2, h2'.2⟩, by simpa using h3,
        by simpa using h4'.1, h4'.2, ds, n, Or.inr ⟨rfl, rfl⟩, ha, by omega, ?_⟩
      simp [CacheableResponse.CacheStatus, h1, h2, h3, h4, hs, hm, ha, hn]
    · rcases ha : goAtoiDigits ds with _ | n
      · simp [hs, ha] at hc
      by_cases hn : n ≤ 0
      · simp [hs, ha, hn] at hc
      refine ⟨by simpa using h1, ⟨h2'.1.1, h2'.1.2, h2'.2⟩, by simpa using h3,
        by simpa using h4'.1, h4'.2, ds, n, Or.inl rfl, ha, by omega, ?_⟩
      simp [CacheableResponse.CacheStatus, h1, h2, h3, h4, hs, ha, hn]
  · intro c st now hcc
    unfold CacheableResponse.CacheStatus
    rw [hcc]
    split_ifs <;>
      simp [show findNumToken "s-max-age=" "public, max-age=0" = none from by decide,
        show findNumToken "max-age=" "public, max-age=0" = some ['0'] from by decide,
        show goAtoiDigits ['0'] = some 0 from by decide]
  · intro c st now hnc
    unfold CacheableResponse.CacheStatus
    split_ifs with h1 h2 h3 h4 <;> try rfl
    exact absurd (by simp [hnc]) h4

/-- Witness for C1: concrete responses showing the `max-age=0` and `no-cache`
branches of the claim at work. -/
theorem claim_C1_witness :
    ((⟨200, [("Cache-Control", ["public, max-age=0"])], [], []⟩ : CacheableResponse).CacheStatus
      (NewStashingWriter 100) 5).1 = false ∧
    ((⟨200, [("Cache-Control", ["no-cache, public, max-age=60"])], [], []⟩ :
        CacheableResponse).CacheStatus (NewStashingWriter 100) 5).1 = false := by
  constructor
  · exact claim_C1.2.1 _ _ 5 (by decide)
  · exact claim_C1.2.2 _ _ 5 (by decide)

/-- Outcome of `cmd.Wait()` observed by the supervisor's `Start`: the process
exited with a code (a `*exec.ExitError` carries a non-zero code, a nil error a
zero one), or waiting itself failed. -/
inductive WaitOutcome where
  | exited (code : Int)
  | waitFailed (msg : String)
deriving Repr, DecidableEq

/-- Models the return value of `Server.Start` from the point where
`cmd.Wait()` has been observed, given the `stopping` flag read under the
supervisor's lock: `none` is a nil error. -/
def startWaitResult (outcome : WaitOutcome) (stopping : Bool) : Option String :=
  match outcome with
  | .exited code =>
      if code ≠ 0 then
        if stopping then none
        else some ("upstream process exited with code " ++ toString code)
      else none
  | .waitFailed msg => some ("wait upstream command: " ++ msg)

/-- Claim C5: a non-zero exit yields a nil return from `Start` exactly when the
stopping flag was set when the exit was observed, and a zero exit always
yields nil. -/
theorem claim_C5 :
    (∀ (code : Int) (stopping : Bool), code ≠ 0 →
      (startWaitResult (.exited code) stopping = none ↔ stopping = true)) ∧
    (∀ stopping : Bool, startWaitResult (.exited 0) stopping = none) := by
  constructor
  · intro code stopping hcode
    cases stopping <;> simp [startWaitResult, hcode]
  · intro stopping
    simp [startWaitResult]

/-- Witness for C5: exit code 137 is a failure when not stopping and a clean
shutdown when stopping. -/
theorem claim_C5_witness :
    (startWaitResult (.exited 137) true = none ↔ true = true) ∧
    (startWaitResult (.exited 137) false = none ↔ false = true) ∧
    startWaitResult (.exited 0) false = none :=
  ⟨claim_C5.1 137 true (by decide), claim_C5.1 137 false (by decide), claim_C5.2 false⟩

/-- The backslash character. -/
def backslashChar : Char := Char.ofNat 92

/-- The single-quote character. -/
def singleQuoteChar : Char := Char.ofNat 39

/-- The double-quote character. -/
def doubleQuoteChar : Char := Char.ofNat 34

/-- The scanner state of `splitCommandLine`: accumulated arguments, the
current token, and the quoting and escape flags. -/
structure SplitAcc where
  result : List String
  current : List Char
  inSingle : Bool
  inDouble : Bool
  escape : Bool
deriving Repr, DecidableEq

/-- One iteration of the rune loop of `splitCommandLine`. -/
def splitStep (st : SplitAcc) (r : Char) : SplitAcc :=
  if st.escape then { st with current := st.current ++ [r], escape := false }
  else if r == backslashChar then
    if st.inSingle then { st with current := st.current ++ [r] }
    else { st with escape := true }
  else if r == singleQuoteChar && !st.inDouble then { st with inSingle := !st.inSingle }
  else if r == doubleQuoteChar && !st.inSingle then { st with inDouble := !st.inDouble }
  else if goIsSpace r && !st.inSingle && !st.inDouble then
    if st.current.length > 0 then
      { st with result := st.result ++ [⟨st.current⟩], current := [] }
    else st
  else { st with current := st.current ++ [r] }

/-- The scanner state after the rune loop of `splitCommandLine`. -/
def splitScan (command : String) : SplitAcc :=
  command.data.foldl splitStep ⟨[], [], false, false, false⟩

/-- Models `splitCommandLine`. -/
def splitCommandLine (command : String) : Except String (List String) :=
  let st := splitScan command
  if st.escape then .error "unterminated escape sequence in command"
  else if st.inSingle || st.inDouble then .error "unterminated quoted string in command"
  else if st.current.length > 0 then .ok (st.result ++ [⟨st.current⟩])
  else .ok st.result

/-- Claim C6: the concrete command line splits into its four arguments with the
quotes removed, and a scan ending in an open escape or an open quote yields an
error and no argument vector. -/
theorem claim_C6 :
    splitCommandLine "/usr/bin/env bash -c \"echo hello world\"" =
      .ok ["/usr/bin/env", "bash", "-c", "echo hello world"] ∧
    (∀ s, (splitScan s).escape = true → ∃ e, splitCommandLine s = .error e) ∧
    (∀ s, ((splitScan s).inSingle = true ∨ (splitScan s).inDouble = true) →
      ∃ e, splitCommandLine s = .error e) := by
  refine ⟨by rfl, ?_, ?_⟩
  · intro s hesc
    exact ⟨_, by unfold splitCommandLine; rw [if_pos hesc]⟩
  · intro s hq
    unfold splitCommandLine
    by_cases hesc : (splitScan s).escape = true
    · exact ⟨_, by rw [if_pos hesc]⟩
    · refine ⟨"unterminated quoted string in command", ?_⟩
      rw [if_neg hesc, if_pos ?_]
      rcases hq with h | h <;> simp [h]

/-- Witness for C6: an unterminated double quote and a trailing backslash each
produce an error. -/
theorem claim_C6_witness :
    (∃ e, splitCommandLine "\"abc" = .error e) ∧
    (∃ e, splitCommandLine "abc\\" = .error e) :=
  ⟨claim_C6.2.2 "\"abc" (by decide), claim_C6.2.1 "abc\\" (by decide)⟩

/-- Models `normalizeUnixSocketPath`. -/
def normalizeUnixSocketPath (inp : String) : String :=
  if inp = "" then ""
  else
    let s := strTrimSpace inp
    if strHasPrefix s "unix://" then
      let s2 := strDropPrefix s "unix://"
      if !(strHasPrefix s2 "/") then "/" ++ s2 else s2
    else s

/-- Prepending a slash yields a string beginning with a slash. -/
theorem slashAppendPrefix (x : String) : strHasPrefix ("/" ++ x) "/" = true := by
  unfold strHasPrefix
  rw [String.data_append]
  show (['/'] : List Char).isPrefixOf ('/' :: x.data) = true
  simp [List.isPrefixOf]

/-- A character list beginning with a slash cannot begin with `unix://`. -/
theorem slashPrefixNotUnix (l : List Char) (h : ("/".data).isPrefixOf l = true) :
    ("unix://".data).isPrefixOf l = false := by
  cases l with
  | nil => exact absurd h (by decide)
  | cons c rest =>
    have h2 : (('/' : Char) == c && ([] : List Char).isPrefixOf rest) = true := h
    have hc : c = '/' := (beq_iff_eq.mp ((Bool.and_eq_true _ _).mp h2).1).symm
    subst hc
    show (('u' : Char) == '/' &&
      (['n', 'i', 'x', ':', '/', '/'] : List Char).isPrefixOf rest) = false
    have hne : (('u' : Char) == '/') = false := by decide
    rw [hne, Bool.false_and]

/-- Counterexample for C8: a relative raw path is returned as-is, so the result
does not begin with a slash. -/
theorem claim_C8_counterexample :
    normalizeUnixSocketPath "tmp/puma.sock" = "tmp/puma.sock" ∧
    strHasPrefix (normalizeUnixSocketPath "tmp/puma.sock") "/" = false := by
  decide

/-- Claim C8 (amended): an input that is absolute after trimming, and any input
carrying the `unix://` prefix after trimming, both normalise to a path
beginning with `/`; other inputs are returned as trimmed. -/
theorem claim_C8 :
    (∀ s : String, strHasPrefix (strTrimSpace s) "/" = true →
      strHasPrefix (normalizeUnixSocketPath s) "/" = true) ∧
    (∀ s : String, strHasPrefix (strTrimSpace s) "unix://" = true →
      strHasPrefix (normalizeUnixSocketPath s) "/" = true) := by
  constructor
  · intro s habs
    unfold normalizeUnixSocketPath
    by_cases hempty : s = ""
    · rw [hempty] at habs
      exact absurd habs (by decide)
    rw [if_neg hempty]
    have hu : strHasPrefix (strTrimSpace s) "unix://" = false := by
      have := slashPrefixNotUnix (strTrimSpace s).data (by simpa [strHasPrefix] using habs)
      simpa [strHasPrefix] using this
    simp only [hu, Bool.false_eq_true, if_false]
    exact habs
  · intro s hu
    unfold normalizeUnixSocketPath
    by_cases hempty : s = ""
    · rw [hempty] at hu
      exact absurd hu (by decide)
    rw [if_neg hempty]
    simp only [hu, if_true]
    by_cases hs2 : strHasPrefix (strDropPrefix (strTrimSpace s) "unix://") "/" = true
    · simp [hs2]
    · simp only [Bool.not_eq_true] at hs2
      simp [hs2, slashAppendPrefix]

/-- Witness for C8: an absolute raw path and a `unix://` path both normalise to
a path beginning with a slash. -/
theorem claim_C8_witness :
    strHasPrefix (normalizeUnixSocketPath "/tmp/puma.sock") "/" = true ∧
    strHasPrefix (normalizeUnixSocketPath "unix://tmp/puma.sock") "/" = true :=
  ⟨claim_C8.1 "/tmp/puma.sock" (by decide), claim_C8.2 "unix://tmp/puma.sock" (by decide)⟩

/-- Go string comparison (byte lexicographic; on UTF-8 this is code-point
lexicographic) as a computable strict order on character lists. -/
def charListLtB : List Char → List Char → Bool
  | [], [] => false
  | [], _ :: _ => true
  | _ :: _, [] => false
  | a :: as, b :: bs =>
    if a.toNat < b.toNat then true
    else if b.toNat < a.toNat then false
    else charListLtB as bs

/-- The strict list order is irreflexive. -/
theorem charListLtB_irrefl (l : List Char) : charListLtB l l = false := by
  induction l with
  | nil => rfl
  | cons a as ih => simp [charListLtB, ih]

/-- The strict list order is trichotomous. -/
theorem charListLtB_trichot (a b : List Char) :
    charListLtB a b = true ∨ a = b ∨ charListLtB b a = true := by
  induction a generalizing b with
  | nil =>
    cases b with
    | nil => exact Or.inr (Or.inl rfl)
    | cons y ys => exact Or.inl rfl
  | cons x xs ih =>
    cases b with
    | nil => exact Or.inr (Or.inr rfl)
    | cons y ys =>
      rcases Nat.lt_trichotomy x.toNat y.toNat with hlt | heq | hgt
      · exact Or.inl (by simp [charListLtB, hlt])
      · have hxy : x = y := by
          have := congrArg Char.ofNat heq
          rwa [Char.ofNat_toNat, Char.ofNat_toNat] at this
        subst hxy
        rcases ih ys with h | h | h
        · exact Or.inl (by simp [charListLtB, h])
        · exact Or.inr (Or.inl (by rw [h]))
        · exact Or.inr (Or.inr (by simp [charListLtB, h]))
      · exact Or.inr (Or.inr (by simp [charListLtB, hgt, Nat.lt_asymm hgt]))

/-- The strict list order is transitive. -/
theorem charListLtB_trans {a b c : List Char} (hab : charListLtB a b = true)
    (hbc : charListLtB b c = true) : charListLtB a c = true := by
  induction a generalizing b c with
  | nil =>
    cases c with
    | nil =>
      cases b with
      | nil => exact hab
      | cons y ys => simp [charListLtB] at hbc
    | cons z zs => rfl
  | cons x xs ih =>
    cases b with
    | nil => simp [charListLtB] at hab
    | cons y ys =>
      cases c with
      | nil => simp [charListLtB] at hbc
      | cons z zs =>
        simp only [charListLtB] at hab hbc ⊢
        by_cases hxy : x.toNat < y.toNat
        · by_cases hyz : y.toNat < z.toNat
          · rw [if_pos (Nat.lt_trans hxy hyz)]
          · rw [if_neg hyz] at hbc
            by_cases hzy : z.toNat < y.toNat
            · rw [if_pos hzy] at hbc; exact absurd hbc (by simp)
            · have : y.toNat = z.toNat := by omega
              rw [if_pos (this ▸ hxy)]
        · rw [if_neg hxy] at hab
          by_cases hyx : y.toNat < x.toNat
          · rw [if_pos hyx] at hab; exact absurd hab (by simp)
          · have hxeqy : x.toNat = y.toNat := by omega
            rw [if_neg hyx] at hab
            by_cases hyz : y.toNat < z.toNat
            · rw [if_pos (hxeqy ▸ hyz)]
            · rw [if_neg hyz] at hbc
              by_cases hzy : z.toNat < y.toNat
              · rw [if_pos hzy] at hbc; exact absurd hbc (by simp)
              · rw [if_neg hzy] at hbc
                rw [if_neg (hxeqy ▸ hyz), if_neg (fun hz => hzy (hxeqy ▸ hz))]
                exact ih hab hbc

/-- Go string order `a <= b` (not `b < a` byte-wise), used to model
`slices.Sort` on `[]string`. -/
def goStrLe (a b : String) : Prop :=
  charListLtB b.data a.data = false

instance : DecidableRel goStrLe :=
  fun a b => inferInstanceAs (Decidable (charListLtB b.data a.data = false))

instance : IsTotal String goStrLe := by
  constructor
  intro a b
  by_cases h : charListLtB b.data a.data = false
  · exact Or.inl h
  · right
    show charListLtB a.data b.data = false
    by_contra hab
    have h1 : charListLtB a.data b.data = true := by
      cases hv : charListLtB a.data b.data
      · exact absurd hv hab
      · rfl
    have h2 : charListLtB b.data a.data = true := by
      cases hv : charListLtB b.data a.data
      · exact absurd hv h
      · rfl
    have := charListLtB_trans h1 h2
    rw [charListLtB_irrefl] at this
    exact absurd this (by simp)

instance : IsTrans String goStrLe := by
  constructor
  intro a b c hab hbc
  show charListLtB c.data a.data = false
  by_contra hca
  have hca' : charListLtB c.data a.data = true := by
    cases hv : charListLtB c.data a.data
    · exact absurd hv hca
    · rfl
  have hab' : charListLtB b.data a.data = false := hab
  have hbc' : charListLtB c.data b.data = false := hbc
  rcases charListLtB_trichot c.data b.data with h | h | h
  · rw [h] at hbc'
    exact absurd hbc' (by simp)
  · rw [h] at hca'
    rw [hca'] at hab'
    exact absurd hab' (by simp)
  · have := charListLtB_trans h hca'
    rw [this] at hab'
    exact absurd hab' (by simp)

/-- Splitting helper: all separator-free chunks, in order. -/
def splitCharAux (sep : Char) : List Char → List Char → List (List Char)
  | [], cur => [cur.reverse]
  | c :: rest, cur =>
    if c == sep then cur.reverse :: splitCharAux sep rest []
    else splitCharAux sep rest (c :: cur)

/-- Models Go `strings.Split` with a one-character separator. -/
def strSplitOnChar (sep : Char) (s : String) : List String :=
  (splitCharAux sep s.data []).map (fun l => ⟨l⟩)

/-- Models `Variant.parseVaryHeader`: split the Vary value on commas, trim and
canonicalise each name, and sort.  `slices.Sort` is modelled by insertion sort
under the Go string order, which produces the same (unique) sorted
arrangement. -/
def parseVaryHeader (responseHeader : Header) : List String :=
  if headerGet responseHeader "Vary" = "" then []
  else
    List.insertionSort goStrLe
      ((strSplitOnChar ',' (headerGet responseHeader "Vary")).map
        (fun name => canonicalHeaderKey (strTrimSpace name)))

/-- Counterexample for C7: a Vary value naming the same header twice yields a
list with that name twice, so the parsed list is not duplicate-free. -/
theorem claim_C7_counterexample :
    parseVaryHeader [("Vary", ["Accept, Accept"])] = ["Accept", "Accept"] ∧
    ¬ (parseVaryHeader [("Vary", ["Accept, Accept"])]).Nodup := by
  constructor
  · decide
  · intro h
    rw [show parseVaryHeader [("Vary", ["Accept, Accept"])] = ["Accept", "Accept"]
      from by decide] at h
    simp at h

/-- Claim C7 (amended): the parsed Vary list is sorted and case-normalised, and
is a permutation of the canonicalised trimmed comma-separated names — so
duplicate names in the Vary value are retained, not deduplicated. -/
theorem claim_C7 (h : Header) :
    (parseVaryHeader h).Sorted goStrLe ∧
    (headerGet h "Vary" ≠ "" →
      (parseVaryHeader h).Perm
        ((strSplitOnChar ',' (headerGet h "Vary")).map
          (fun name => canonicalHeaderKey (strTrimSpace name)))) := by
  unfold parseVaryHeader
  by_cases hv : headerGet h "Vary" = ""
  · rw [if_pos hv]
    exact ⟨List.sorted_nil, fun hne => absurd hv hne⟩
  · rw [if_neg hv]
    exact ⟨List.sorted_insertionSort _ _, fun _ => List.perm_insertionSort _ _⟩

/-- Witness for C7: the Vary value `b, A` parses sorted and canonicalised, as a
permutation of its canonicalised split. -/
theorem claim_C7_witness :
    (parseVaryHeader [("Vary", ["b, A"])]).Sorted goStrLe ∧
    (parseVaryHeader [("Vary", ["b, A"])]).Perm
      ((strSplitOnChar ',' "b, A").map (fun name => canonicalHeaderKey (strTrimSpace name))) := by
  have h := claim_C7 [("Vary", ["b, A"])]
  refine ⟨h.1, ?_⟩
  have hp := h.2 (by decide)
  simpa using hp

/-- Reading one symbol of the storage encoding. -/
def decSym : List Nat → Option (Nat × List Nat)
  | [] => none
  | x :: r => some (x, r)

/-- Reading a fixed number of symbols. -/
def decTake : Nat → List Nat → Option (List Nat × List Nat)
  | 0, r => some ([], r)
  | _ + 1, [] => none
  | n + 1, x :: r => (decTake n r).map (fun p => (x :: p.1, p.2))

/-- Character-list encoding: length then code points. -/
def encChars (cs : List Char) : List Nat :=
  cs.length :: cs.map Char.toNat

/-- Reading a fixed number of characters. -/
def decChars : Nat → List Nat → Option (List Char × List Nat)
  | 0, r => some ([], r)
  | _ + 1, [] => none
  | n + 1, x :: r => (decChars n r).map (fun p => (Char.ofNat x :: p.1, p.2))

/-- String encoding over the storage symbols. -/
def encString (s : String) : List Nat :=
  encChars s.data

/-- String decoding over the storage symbols. -/
def decString (l : List Nat) : Option (String × List Nat) := do
  let (n, r) ← decSym l
  let (cs, r2) ← decChars n r
  some (⟨cs⟩, r2)

/-- Integer encoding: sign symbol then magnitude. -/
def encIntZ (i : Int) : List Nat :=
  (if i < 0 then 1 else 0) :: [i.natAbs]

/-- Integer decoding. -/
def decIntZ : List Nat → Option (Int × List Nat)
  | s :: m :: r => if s == 1 then some (-(m : Int), r) else some ((m : Int), r)
  | _ => none

/-- List encoding: length then the concatenated element encodings. -/
def encListWith (enc : α → List Nat) (xs : List α) : List Nat :=
  xs.length :: (xs.map enc).flatten

/-- Decoding a fixed number of elements. -/
def decListWithAux (dec : List Nat → Option (α × List Nat)) :
    Nat → List Nat → Option (List α × List Nat)
  | 0, r => some ([], r)
  | n + 1, r => do
    let (x, r2) ← dec r
    let (xs, r3) ← decListWithAux dec n r2
    some (x :: xs, r3)

/-- List decoding: read the length, then that many elements. -/
def decListWith (dec : List Nat → Option (α × List Nat)) (l : List Nat) :
    Option (List α × List Nat) := do
  let (n, r) ← decSym l
  decListWithAux dec n r

/-- Byte-sequence encoding: length then the bytes. -/
def encBytes (b : List Nat) : List Nat :=
  b.length :: b

/-- Byte-sequence decoding. -/
def decBytes (l : List Nat) : Option (List Nat × List Nat) := do
  let (n, r) ← decSym l
  decTake n r

/-- Header encoding: a list of key/values pairs. -/
def encHeaderE (h : Header) : List Nat :=
  encListWith (fun p => encString p.1 ++ encListWith encString p.2) h

/-- Header decoding. -/
def decHeaderE (l : List Nat) : Option (Header × List Nat) :=
  decListWith (fun l2 => do
    let (k, r) ← decString l2
    let (vs, r2) ← decListWith decString r
    some ((k, vs), r2)) l

/-- Encoding of the exported fields of `CacheableResponse`.
Modelled from the spec: `encoding/gob` is outside this repository; the spec
only requires an opaque byte encoding that round-trips the full structure, so
the codec is modelled as this invertible length-delimited encoding. -/
def encCacheableResponse (c : CacheableResponse) : List Nat :=
  encIntZ c.StatusCode ++ encHeaderE c.HttpHeader ++ encBytes c.Body ++
    encHeaderE c.VariantHeader

/-- Decoding of the exported fields of `CacheableResponse`. -/
def decCacheableResponse (l : List Nat) : Option (CacheableResponse × List Nat) := do
  let (sc, r1) ← decIntZ l
  let (hh, r2) ← decHeaderE r1
  let (b, r3) ← decBytes r2
  let (vh, r4) ← decHeaderE r3
  some (⟨sc, hh, b, vh⟩, r4)

/-- Models `CacheableResponseFromBuffer`: decode or report an error, never
panic. -/
def CacheableResponseFromBuffer (b : List Nat) : Except String CacheableResponse :=
  match decCacheableResponse b with
  | some (c, _) => .ok c
  | none => .error "gob: decode failed"

/-- Models `CacheableResponse.ToBuffer`: stash the body, strip `Set-Cookie`
from the headers put into storage when the response is cacheable, and encode
all cached fields. -/
def CacheableResponse.ToBuffer (c : CacheableResponse) (stasher : StashingWriter)
    (now : Int) : List Nat :=
  let c1 : CacheableResponse := { c with Body := stasher.BodyS }
  let headerForStorage :=
    if (c1.CacheStatus stasher now).1 then headerDel c1.HttpHeader "Set-Cookie"
    else c1.HttpHeader
  encCacheableResponse { c1 with HttpHeader := headerForStorage }

theorem decTake_enc (b r : List Nat) : decTake b.length (b ++ r) = some (b, r) := by
  induction b with
  | nil => rfl
  | cons x t ih => simp [decTake, ih]

theorem decChars_enc (cs : List Char) (r : List Nat) :
    decChars cs.length (cs.map Char.toNat ++ r) = some (cs, r) := by
  induction cs with
  | nil => rfl
  | cons c t ih => simp [decChars, ih, Char.ofNat_toNat]

theorem decString_enc (s : String) (r : List Nat) :
    decString (encString s ++ r) = some (s, r) := by
  unfold decString encString encChars
  simp only [List.cons_append, decSym]
  have h2 : decChars s.length (List.map Char.toNat s.data ++ r) = some (s.data, r) :=
    decChars_enc s.data r
  simp [h2]

theorem decIntZ_enc (i : Int) (r : List Nat) : decIntZ (encIntZ i ++ r) = some (i, r) := by
  unfold encIntZ decIntZ
  by_cases h : i < 0
  · rw [if_pos h]
    simp only [List.cons_append, List.singleton_append]
    rw [if_pos (by rfl)]
    congr 1
    congr 1
    omega
  · rw [if_neg h]
    simp only [List.cons_append, List.singleton_append]
    rw [if_neg (by simp)]
    congr 1
    congr 1
    omega

theorem decListWithAux_enc {α : Type} (dec : List Nat → Option (α × List Nat))
    (enc : α → List Nat) (hx : ∀ x r, dec (enc x ++ r) = some (x, r)) :
    ∀ (xs : List α) (r : List Nat),
      decListWithAux dec xs.length ((xs.map enc).flatten ++ r) = some (xs, r) := by
  intro xs
  induction xs with
  | nil => intro r; rfl
  | cons x t ih =>
    intro r
    simp only [List.map_cons, List.flatten_cons, List.length_cons, List.append_assoc]
    unfold decListWithAux
    rw [hx x ((t.map enc).flatten ++ r)]
    simp [ih r]

theorem decListWith_enc {α : Type} (dec : List Nat → Option (α × List Nat))
    (enc : α → List Nat) (hx : ∀ x r, dec (enc x ++ r) = some (x, r))
    (xs : List α) (r : List Nat) :
    decListWith dec (encListWith enc xs ++ r) = some (xs, r) := by
  unfold decListWith encListWith
  simp [decSym, decListWithAux_enc dec enc hx]

theorem decBytes_enc (b : List Nat) (r : List Nat) :
    decBytes (encBytes b ++ r) = some (b, r) := by
  unfold decBytes encBytes
  simp [decSym, decTake_enc]

theorem decHeaderE_enc (h : Header) (r : List Nat) :
    decHeaderE (encHeaderE h ++ r) = some (h, r) := by
  unfold decHeaderE encHeaderE
  apply decListWith_enc
  intro p r2
  rw [List.append_assoc]
  rw [decString_enc]
  simp [decListWith_enc decString encString decString_enc]

theorem decCacheableResponse_enc (c : CacheableResponse) (r : List Nat) :
    decCacheableResponse (encCacheableResponse c ++ r) = some (c, r) := by
  unfold decCacheableResponse encCacheableResponse
  simp [decIntZ_enc, decHeaderE_enc, decBytes_enc, List.append_assoc]

/-- No entry under the deleted key survives `headerDel`. -/
theorem lookup_headerDel_self (h : Header) (k : String) :
    (headerDel h k).lookup (canonicalHeaderKey k) = none := by
  show (h.filter (fun p => p.1 != canonicalHeaderKey k)).lookup (canonicalHeaderKey k) = none
  induction h with
  | nil => rfl
  | cons p t ih =>
    obtain ⟨pk, pv⟩ := p
    by_cases hp : (pk != canonicalHeaderKey k) = true
    · have h1 : pk ≠ canonicalHeaderKey k := bne_iff_ne.mp hp
      have hne : (canonicalHeaderKey k == pk) = false :=
        beq_eq_false_iff_ne.mpr (fun he => h1 he.symm)
      simp [List.filter, List.lookup, hp, hne, ih]
    · simp only [Bool.not_eq_true] at hp
      simp [List.filter, hp, ih]

/-- Decoding inverts the storage encoding. -/
theorem fromBuffer_enc (c : CacheableResponse) :
    CacheableResponseFromBuffer (encCacheableResponse c) = .ok c := by
  unfold CacheableResponseFromBuffer
  have hr := decCacheableResponse_enc c []
  rw [List.append_nil] at hr
  rw [hr]

/-- Claim C2: for a cacheable response, encoding with `ToBuffer` and decoding
with `CacheableResponseFromBuffer` restores the status code, body, variant
header and response headers, except that `Set-Cookie` is absent from the
stored headers; decoding malformed bytes yields an error value, not a panic. -/
theorem claim_C2 :
    (∀ (c : CacheableResponse) (st : StashingWriter) (now : Int),
      (c.CacheStatus st now).1 = true →
        CacheableResponseFromBuffer (c.ToBuffer st now) =
          .ok ⟨c.StatusCode, headerDel c.HttpHeader "Set-Cookie", st.BodyS, c.VariantHeader⟩ ∧
        headerValues (headerDel c.HttpHeader "Set-Cookie") "Set-Cookie" = []) ∧
    (∃ e, CacheableResponseFromBuffer [] = .error e) := by
  constructor
  · intro c st now hc
    constructor
    · simp only [CacheableResponse.ToBuffer]
      have hc1 : (({ c with Body := st.BodyS } : CacheableResponse).CacheStatus st now).1 =
          true := hc
      rw [if_pos hc1, fromBuffer_enc]
    · unfold headerValues
      rw [lookup_headerDel_self]
      rfl
  · exact ⟨"gob: decode failed", rfl⟩

/-- Witness for C2: a concrete cacheable response with a `Set-Cookie` header
round-trips with that header stripped. -/
theorem claim_C2_witness :
    CacheableResponseFromBuffer
        ((⟨200, [("Cache-Control", ["public, max-age=60"]), ("Set-Cookie", ["sid=1"])], [], []⟩ :
          CacheableResponse).ToBuffer (NewStashingWriter 100) 5) =
      .ok ⟨200, [("Cache-Control", ["public, max-age=60"])], (NewStashingWriter 100).BodyS, []⟩ ∧
    headerValues
      (headerDel
        ([("Cache-Control", ["public, max-age=60"]), ("Set-Cookie", ["sid=1"])] : Header)
        "Set-Cookie") "Set-Cookie" = [] := by
  have h := claim_C2.1
    ⟨200, [("Cache-Control", ["public, max-age=60"]), ("Set-Cookie", ["sid=1"])], [], []⟩
    (NewStashingWriter 100) 5 (by decide)
  refine ⟨?_, h.2⟩
  rw [h.1]
  rfl

/-- Value of a hexadecimal digit, if the character is one. -/
def hexVal (c : Char) : Option Nat :=
  if '0' ≤ c ∧ c ≤ '9' then some (c.toNat - 48)
  else if 'a' ≤ c ∧ c ≤ 'f' then some (c.toNat - 87)
  else if 'A' ≤ c ∧ c ≤ 'F' then some (c.toNat - 55)
  else none

/-- Models Go `url.QueryUnescape` (percent escapes, plus as space), at
character level rather than byte level (identical on ASCII input); `none` on a
malformed escape, as `QueryUnescape` errors. -/
def queryUnescape : List Char → Option (List Char)
  | [] => some []
  | '%' :: a :: b :: rest => do
      let ha ← hexVal a
      let hb ← hexVal b
      let r ← queryUnescape rest
      some (Char.ofNat (16 * ha + hb) :: r)
  | '%' :: _ => none
  | '+' :: rest => (queryUnescape rest).map (fun r => ' ' :: r)
  | c :: rest => (queryUnescape rest).map (fun r => c :: r)

/-- Models `strings.Cut(s, "=")`: the parts before and after the first
equals sign, the whole string and empty when there is none. -/
def cutEq (s : String) : String × String :=
  match s.data.dropWhile (fun c => c != '=') with
  | [] => (s, "")
  | _ :: rest => (⟨s.data.takeWhile (fun c => c != '=')⟩, ⟨rest⟩)

/-- Models `url.ParseQuery` as used by `URL.Query()` (which discards the
error): ampersand-separated pairs in order, skipping empty chunks, chunks
containing a semicolon, and chunks whose key or value fails to unescape. -/
def parseQuery (s : String) : List (String × String) :=
  (strSplitOnChar '&' s).foldl
    (fun acc part =>
      if part = "" then acc
      else if strContainsSub part ";" then acc
      else
        match queryUnescape (cutEq part).1.data, queryUnescape (cutEq part).2.data with
        | some k2, some v2 => acc ++ [(⟨k2⟩, ⟨v2⟩)]
        | _, _ => acc)
    []

/-- Appending a value under a key of a `url.Values` map. -/
def valuesAdd (acc : List (String × List String)) (k v : String) :
    List (String × List String) :=
  if (acc.lookup k).isSome then
    acc.map (fun p => if p.1 == k then (p.1, p.2 ++ [v]) else p)
  else acc ++ [(k, [v])]

/-- The `url.Values` grouping of the parsed query pairs. -/
def queryGroups (ps : List (String × String)) : List (String × List String) :=
  ps.foldl (fun acc p => valuesAdd acc p.1 p.2) []

/-- Characters `url.QueryEscape` leaves unescaped. -/
def isUnreservedQueryChar (c : Char) : Bool :=
  c.isAlphanum || c == '-' || c == '_' || c == '.' || c == '~'

/-- Uppercase hexadecimal digit. -/
def hexDigitChar (n : Nat) : Char :=
  if n < 10 then Char.ofNat (48 + n) else Char.ofNat (55 + n)

/-- Models `url.QueryEscape` for one character (byte-level escapes modelled at
character level; identical on ASCII). -/
def queryEscapeChar (c : Char) : List Char :=
  if isUnreservedQueryChar c then [c]
  else if c == ' ' then ['+']
  else ['%', hexDigitChar (c.toNat / 16 % 16), hexDigitChar (c.toNat % 16)]

/-- Models `url.QueryEscape`. -/
def queryEscape (s : String) : String :=
  ⟨s.data.flatMap queryEscapeChar⟩

/-- Ampersand-joining of encoded `key=value` chunks. -/
def strIntercalateAmp : List String → String
  | [] => ""
  | [x] => x
  | x :: rest => x ++ "&" ++ strIntercalateAmp rest

/-- Models `r.URL.Query().Encode()`: parse the raw query, group values by key,
sort the keys, and emit escaped `key=value` pairs joined by ampersands. -/
def urlQueryEncode (rawQuery : String) : String :=
  strIntercalateAmp
    ((List.insertionSort goStrLe ((queryGroups (parseQuery rawQuery)).map Prod.fst)).flatMap
      (fun k =>
        (((queryGroups (parseQuery rawQuery)).lookup k).getD []).map
          (fun v => queryEscape k ++ "=" ++ queryEscape v)))

/-- The URL fields of a request that the cache key reads. -/
structure GoURL where
  Path : String
  RawQuery : String
deriving Repr, DecidableEq

/-- The request fields the proxy cache reads: method, URL, host and headers. -/
structure Request where
  Method : String
  url : GoURL
  Host : String
  header : Header
deriving Repr, DecidableEq

/-- Models the `Variant` struct: the request and the Vary-derived header
names. -/
structure Variant where
  r : Request
  headerNames : List String
deriving Repr, DecidableEq

/-- Models `NewVariant`. -/
def NewVariant (r : Request) : Variant :=
  ⟨r, []⟩

/-- The byte stream hashed by `Variant.CacheKey`: sequential `hash.Write`
calls concatenate. -/
def Variant.hashInput (v : Variant) : List Nat :=
  utf8Bytes v.r.Method ++ utf8Bytes v.r.url.Path ++
    utf8Bytes (urlQueryEncode v.r.url.RawQuery) ++ utf8Bytes v.r.Host ++
    v.headerNames.flatMap (fun name => utf8Bytes (name ++ "=" ++ headerGet v.r.header name))

/-- Models `Variant.CacheKey`: the 64-bit FNV-1 hash of the stream. -/
def Variant.CacheKey (v : Variant) : Nat :=
  fnv64 v.hashInput

/-- Mapping equal functions over a list element-wise gives equal flattenings. -/
theorem flatMap_congr_mem {α β : Type} (l : List α) (f g : α → List β)
    (h : ∀ x ∈ l, f x = g x) : l.flatMap f = l.flatMap g := by
  induction l with
  | nil => rfl
  | cons x t ih =>
    simp only [List.flatMap_cons]
    rw [h x (by simp), ih (fun y hy => h y (by simp [hy]))]

/-- Claim C3: two requests that agree on method, path, normalised query and
host, and on the value of every Vary-listed header name, produce the same
cache key; the key depends on nothing else in the request (the two requests
are otherwise arbitrary). -/
theorem claim_C3 (r1 r2 : Request) (names : List String)
    (hm : r1.Method = r2.Method) (hp : r1.url.Path = r2.url.Path)
    (hq : urlQueryEncode r1.url.RawQuery = urlQueryEncode r2.url.RawQuery)
    (hh : r1.Host = r2.Host)
    (hv : ∀ n ∈ names, headerGet r1.header n = headerGet r2.header n) :
    Variant.CacheKey ⟨r1, names⟩ = Variant.CacheKey ⟨r2, names⟩ := by
  unfold Variant.CacheKey Variant.hashInput
  simp only []
  rw [hm, hp, hq, hh]
  congr 1
  congr 1
  exact flatMap_congr_mem names _ _ (fun n hn => by rw [hv n hn])

/-- Witness for C3: two concrete requests differing only in an unlisted header
share the cache key. -/
theorem claim_C3_witness :
    Variant.CacheKey
        ⟨⟨"GET", ⟨"/resource", "b=2&a=1"⟩, "example.com",
          [("Accept-Encoding", ["gzip"]), ("User-Agent", ["curl"])]⟩,
          ["Accept-Encoding"]⟩ =
      Variant.CacheKey
        ⟨⟨"GET", ⟨"/resource", "b=2&a=1"⟩, "example.com",
          [("Accept-Encoding", ["gzip"]), ("User-Agent", ["browser"]),
            ("Range", ["bytes=0-1"])]⟩,
          ["Accept-Encoding"]⟩ :=
  claim_C3 _ _ _ rfl rfl rfl rfl (by decide)

/-- The 64-bit cache key type (`CacheKey uint64`), modelled as `Nat`. -/
abbrev CacheKey := Nat

/-- Models `MemoryCacheEntry`; times are integers, the zero `time.Time` is 0. -/
structure MemoryCacheEntry where
  lastAccessedAt : Int
  expiresAt : Int
  value : List Nat
deriving Repr, DecidableEq

/-- Models the hand-rolled `MemoryCache` state: the map is an association list
with unique keys and `keys` tracks stored keys in insertion order. -/
structure MemoryCache where
  capacity : Int
  maxItemSize : Int
  size : Int
  keys : List CacheKey
  items : List (CacheKey × MemoryCacheEntry)
deriving Repr, DecidableEq

/-- Models `NewMemoryCache`. -/
def NewMemoryCache (capacity maxItemSize : Int) : MemoryCache :=
  ⟨capacity, maxItemSize, 0, [], []⟩

/-- Go map indexing `c.items[key]`; on a coherent state the key is always
present where the code reads it (Go would dereference nil otherwise). -/
def lookupEntry (items : List (CacheKey × MemoryCacheEntry)) (k : CacheKey) :
    MemoryCacheEntry :=
  (items.lookup k).getD ⟨0, 0, []⟩

/-- Go map `delete(c.items, key)`. -/
def assocDel (items : List (CacheKey × MemoryCacheEntry)) (k : CacheKey) :
    List (CacheKey × MemoryCacheEntry) :=
  items.eraseP (fun p => p.1 == k)

/-- Go map assignment `c.items[key] = entry`. -/
def assocSet : List (CacheKey × MemoryCacheEntry) → CacheKey → MemoryCacheEntry →
    List (CacheKey × MemoryCacheEntry)
  | [], k, e => [(k, e)]
  | p :: t, k, e => if p.1 == k then (k, e) :: t else p :: assocSet t k e

/-- The sampling loop of `evictOldestItem`: up to five random indices, an
expired entry wins immediately, otherwise the least-recently-accessed sample
wins.  `rand.Intn` is modelled by the oracle values `rs` reduced mod the live
key count. -/
def pickVictim (keys : List CacheKey) (items : List (CacheKey × MemoryCacheEntry))
    (now : Int) : Nat → List Nat → CacheKey × Nat × Int → CacheKey × Nat
  | 0, _, (k, idx, _) => (k, idx)
  | m + 1, rs, (k, idx, oldest) =>
    let index := rs.headD 0 % keys.length
    let key := keys.getD index 0
    let entry := lookupEntry items key
    if entry.expiresAt < now then (key, index)
    else if entry.lastAccessedAt < oldest ∨ oldest = 0 then
      pickVictim keys items now m rs.tail (key, index, entry.lastAccessedAt)
    else
      pickVictim keys items now m rs.tail (k, idx, oldest)

/-- Models `evictOldestItem`: no-op on an empty key list, else swap-remove the
sampled victim from `keys`, subtract its value size, and delete it from the
map. -/
def evictOldestItem (c : MemoryCache) (now : Int) (rs : List Nat) : MemoryCache :=
  if c.keys = [] then c
  else
    let pick := pickVictim c.keys c.items now 5 rs (0, 0, 0)
    let keys2 := (c.keys.set pick.2 (c.keys.getD (c.keys.length - 1) 0)).take
      (c.keys.length - 1)
    { c with
      keys := keys2
      items := assocDel c.items pick.1
      size := c.size - (lookupEntry c.items pick.1).value.length }

/-- The eviction loop of `Set` (`for c.size > limit && len(c.keys) > 0`),
fuelled by the key count: each pass removes one key, so the loop can run at
most that often. -/
def evictLoop (limit now : Int) : Nat → List (List Nat) → MemoryCache → MemoryCache
  | 0, _, c => c
  | fuel + 1, oracle, c =>
    if limit < c.size ∧ c.keys ≠ [] then
      evictLoop limit now fuel oracle.tail (evictOldestItem c now (oracle.headD []))
    else c

/-- Models `MemoryCache.Set`: drop oversized writes, evict until the new item
fits, account for an overwritten entry, store. -/
def MemoryCache.Set (c : MemoryCache) (key : CacheKey) (value : List Nat)
    (expiresAt : Int) (oracle : List (List Nat)) (now : Int) : MemoryCache :=
  if (value.length : Int) > c.maxItemSize ∨ (value.length : Int) > c.capacity then c
  else
    let c1 := evictLoop (c.capacity - (value.length : Int)) now c.keys.length oracle c
    let c2 :=
      if (c1.items.lookup key).isSome then
        { c1 with size := c1.size - (lookupEntry c1.items key).value.length }
      else { c1 with keys := c1.keys ++ [key] }
    { c2 with
      items := assocSet c2.items key ⟨now, expiresAt, value⟩
      size := c2.size + (value.length : Int) }

/-- Models `MemoryCache.Get`: a stored, unexpired entry is returned and its
last-access time refreshed; anything else is a miss. -/
def MemoryCache.Get (c : MemoryCache) (key : CacheKey) (now : Int) :
    Option (List Nat) × MemoryCache :=
  match c.items.lookup key with
  | none => (none, c)
  | some item =>
    if item.expiresAt < now then (none, c)
    else (some item.value,
      { c with items := assocSet c.items key { item with lastAccessedAt := now } })

/-- Total tracked size: the sum of the stored value sizes. -/
def sumLens (items : List (CacheKey × MemoryCacheEntry)) : Int :=
  (items.map (fun p => (p.2.value.length : Int))).sum

/-- Coherence of a `MemoryCache` state: `keys` is a permutation of the map's
keys, map keys are unique, and `size` tracks the stored value sizes. -/
def MemoryCache.WF (c : MemoryCache) : Prop :=
  (c.items.map Prod.fst).Perm c.keys ∧ (c.items.map Prod.fst).Nodup ∧
    c.size = sumLens c.items

/-- Reinserting the removed element in front recovers the list up to
permutation. -/
theorem cons_eraseIdx_perm {α : Type} (l : List α) (i : Nat) (d : α) (h : i < l.length) :
    (l.getD i d :: l.eraseIdx i).Perm l := by
  induction l generalizing i with
  | nil => simp at h
  | cons x t ih =>
    cases i with
    | zero => simp [List.eraseIdx_cons_zero, List.getD_cons_zero]
    | succ n =>
      have hn : n < t.length := by simpa using h
      have hp := (ih n hn).cons x
      rw [List.getD_cons_succ, List.eraseIdx_cons_succ]
      exact (List.Perm.swap x (t.getD n d) (t.eraseIdx n)).trans hp

/-- Overwriting position `i` is, up to permutation, a cons onto the removal of
position `i`. -/
theorem set_perm_cons_eraseIdx {α : Type} (l : List α) (i : Nat) (v : α)
    (h : i < l.length) : (l.set i v).Perm (v :: l.eraseIdx i) := by
  induction l generalizing i with
  | nil => simp at h
  | cons x t ih =>
    cases i with
    | zero => simp [List.eraseIdx_cons_zero]
    | succ n =>
      have hn : n < t.length := by simpa using h
      show (x :: t.set n v).Perm (v :: x :: t.eraseIdx n)
      exact ((ih n hn).cons x).trans (List.Perm.swap v x (t.eraseIdx n))

/-- The swap-remove of `evictOldestItem` removes exactly the element at the
sampled index, up to permutation. -/
theorem swapRemove_perm_eraseIdx {α : Type} (l : List α) (i : Nat) (d : α)
    (h : i < l.length) :
    ((l.set i (l.getD (l.length - 1) d)).take (l.length - 1)).Perm (l.eraseIdx i) := by
  have hpos : 0 < l.length := Nat.lt_of_le_of_lt (Nat.zero_le i) h
  have hlast : l.length - 1 < l.length := by omega
  have hlen : (l.set i (l.getD (l.length - 1) d)).length = l.length := List.length_set l i _
  have htake : (l.set i (l.getD (l.length - 1) d)).take (l.length - 1) =
      (l.set i (l.getD (l.length - 1) d)).eraseIdx (l.length - 1) := by
    rw [List.eraseIdx_eq_take_drop_succ]
    have : l.length - 1 + 1 = (l.set i (l.getD (l.length - 1) d)).length := by omega
    rw [this, List.drop_length, List.append_nil]
  have hget : (l.set i (l.getD (l.length - 1) d)).getD (l.length - 1) d =
      l.getD (l.length - 1) d := by
    by_cases hi : i = l.length - 1
    · subst hi
      simp [List.getD_eq_getElem?_getD, List.getElem?_set_self h]
    · simp [List.getD_eq_getElem?_getD, List.getElem?_set_ne hi]
  have h1 : (l.getD (l.length - 1) d ::
      (l.set i (l.getD (l.length - 1) d)).take (l.length - 1)).Perm
      (l.set i (l.getD (l.length - 1) d)) := by
    rw [htake]
    have := cons_eraseIdx_perm (l.set i (l.getD (l.length - 1) d)) (l.length - 1) d
      (by omega)
    rwa [hget] at this
  have h2 := set_perm_cons_eraseIdx l i (l.getD (l.length - 1) d) h
  exact (h1.trans h2).cons_inv

/-- Removing one position is, up to permutation, erasing its value. -/
theorem eraseIdx_perm_erase {α : Type} [DecidableEq α] (l : List α) (i : Nat) (d : α)
    (h : i < l.length) : (l.eraseIdx i).Perm (l.erase (l.getD i d)) := by
  have h1 := cons_eraseIdx_perm l i d h
  have hmem : l.getD i d ∈ l := h1.subset (List.mem_cons_self _ _)
  have h2 := List.perm_cons_erase hmem
  exact (h1.trans h2).cons_inv

/-- Deleting a key from the association list erases it from the key list. -/
theorem mapFst_assocDel (items : List (CacheKey × MemoryCacheEntry)) (k : CacheKey) :
    (assocDel items k).map Prod.fst = (items.map Prod.fst).erase k := by
  induction items with
  | nil => rfl
  | cons p t ih =>
    obtain ⟨pk, pv⟩ := p
    by_cases hp : pk = k
    · subst hp
      simp [assocDel, List.eraseP_cons, List.erase_cons]
    · have hb : (pk == k) = false := beq_eq_false_iff_ne.mpr hp
      simp [assocDel, List.eraseP_cons, List.erase_cons, hb, hp]
      exact ih

/-- Deleting a key removes exactly the looked-up entry's size from the sum. -/
theorem sumLens_assocDel (items : List (CacheKey × MemoryCacheEntry)) (k : CacheKey) :
    sumLens (assocDel items k) =
      sumLens items - ((lookupEntry items k).value.length : Int) := by
  induction items with
  | nil => simp [assocDel, sumLens, lookupEntry]
  | cons p t ih =>
    obtain ⟨pk, pv⟩ := p
    by_cases hp : pk = k
    · subst hp
      simp [assocDel, List.eraseP_cons, sumLens, lookupEntry, List.lookup_cons]
    · have hb : (pk == k) = false := beq_eq_false_iff_ne.mpr hp
      have hb2 : (k == pk) = false := beq_eq_false_iff_ne.mpr (fun he => hp he.symm)
      simp only [assocDel, List.eraseP_cons, hb, Bool.false_eq_true, if_false, Bool.cond_false,
        sumLens, List.map_cons, List.sum_cons, lookupEntry, List.lookup_cons, hb2] at ih ⊢
      omega

/-- A key that fails to look up is not among the stored keys. -/
theorem lookup_none_not_mem (items : List (CacheKey × MemoryCacheEntry)) (k : CacheKey)
    (h : items.lookup k = none) : k ∉ items.map Prod.fst := by
  induction items with
  | nil => simp
  | cons p t ih =>
    obtain ⟨pk, pv⟩ := p
    by_cases hp : k = pk
    · subst hp
      simp [List.lookup_cons] at h
    · have hb : (k == pk) = false := beq_eq_false_iff_ne.mpr hp
      simp only [List.lookup_cons, hb] at h
      simp only [List.map_cons, List.mem_cons]
      exact fun hmem => hmem.elim (fun he => hp he) (ih h)

/-- On a duplicate-free association list, membership determines the lookup. -/
theorem lookup_of_mem_nodup (k : CacheKey) (e : MemoryCacheEntry) :
    ∀ items : List (CacheKey × MemoryCacheEntry),
      (items.map Prod.fst).Nodup → (k, e) ∈ items → items.lookup k = some e := by
  intro items
  induction items with
  | nil => intro _ hmem; simp at hmem
  | cons p t ih =>
    intro hnd hmem
    obtain ⟨pk, pv⟩ := p
    rcases List.mem_cons.mp hmem with he | ht
    · cases he
      simp [List.lookup_cons]
    · have hkin : k ∈ t.map Prod.fst := List.mem_map.mpr ⟨(k, e), ht, rfl⟩
      rw [List.map_cons, List.nodup_cons] at hnd
      have hk : k ≠ pk := fun heq => hnd.1 (heq ▸ hkin)
      have hb : (k == pk) = false := beq_eq_false_iff_ne.mpr hk
      simp only [List.lookup_cons, hb]
      exact ih hnd.2 ht

/-- Overwriting an existing key leaves the key list unchanged. -/
theorem mapFst_assocSet_mem (items : List (CacheKey × MemoryCacheEntry)) (k : CacheKey)
    (e : MemoryCacheEntry) (h : (items.lookup k).isSome) :
    (assocSet items k e).map Prod.fst = items.map Prod.fst := by
  induction items with
  | nil => simp [List.lookup] at h
  | cons p t ih =>
    obtain ⟨pk, pv⟩ := p
    by_cases hp : pk = k
    · subst hp
      simp [assocSet]
    · have hb : (pk == k) = false := beq_eq_false_iff_ne.mpr hp
      have hb2 : (k == pk) = false := beq_eq_false_iff_ne.mpr (fun he => hp he.symm)
      simp only [List.lookup_cons, hb2] at h
      simp only [assocSet, hb, Bool.false_eq_true, if_false, List.map_cons]
      rw [ih h]

/-- Inserting a fresh key appends it to the key list. -/
theorem mapFst_assocSet_new (items : List (CacheKey × MemoryCacheEntry)) (k : CacheKey)
    (e : MemoryCacheEntry) (h : items.lookup k = none) :
    (assocSet items k e).map Prod.fst = items.map Prod.fst ++ [k] := by
  induction items with
  | nil => rfl
  | cons p t ih =>
    obtain ⟨pk, pv⟩ := p
    by_cases hp : pk = k
    · subst hp
      simp [List.lookup_cons] at h
    · have hb : (pk == k) = false := beq_eq_false_iff_ne.mpr hp
      have hb2 : (k == pk) = false := beq_eq_false_iff_ne.mpr (fun he => hp he.symm)
      simp only [List.lookup_cons, hb2] at h
      simp only [assocSet, hb, Bool.false_eq_true, if_false, List.map_cons, List.cons_append]
      rw [ih h]

/-- Storing under a key replaces that key's contribution to the sum. -/
theorem sumLens_assocSet (items : List (CacheKey × MemoryCacheEntry)) (k : CacheKey)
    (e : MemoryCacheEntry) :
    sumLens (assocSet items k e) =
      sumLens items - ((lookupEntry items k).value.length : Int) + e.value.length := by
  induction items with
  | nil => simp [assocSet, sumLens, lookupEntry]
  | cons p t ih =>
    obtain ⟨pk, pv⟩ := p
    by_cases hp : pk = k
    · subst hp
      simp [assocSet, sumLens, lookupEntry, List.lookup_cons]
      omega
    · have hb : (pk == k) = false := beq_eq_false_iff_ne.mpr hp
      have hb2 : (k == pk) = false := beq_eq_false_iff_ne.mpr (fun he => hp he.symm)
      simp only [assocSet, hb, Bool.false_eq_true, if_false, sumLens, List.map_cons,
        List.sum_cons, lookupEntry, List.lookup_cons, hb2] at ih ⊢
      omega

/-- Storing under one key does not change lookups of other keys. -/
theorem lookup_assocSet_ne (items : List (CacheKey × MemoryCacheEntry)) (k k2 : CacheKey)
    (e : MemoryCacheEntry) (h : k2 ≠ k) :
    (assocSet items k e).lookup k2 = items.lookup k2 := by
  induction items with
  | nil =>
    have hb : (k2 == k) = false := beq_eq_false_iff_ne.mpr h
    simp [assocSet, List.lookup_cons, hb, List.lookup]
  | cons p t ih =>
    obtain ⟨pk, pv⟩ := p
    by_cases hp : pk = k
    · subst hp
      have hb2 : (k2 == pk) = false := beq_eq_false_iff_ne.mpr h
      simp [assocSet, List.lookup_cons, hb2]
    · have hb : (pk == k) = false := beq_eq_false_iff_ne.mpr hp
      simp only [assocSet, hb, Bool.false_eq_true, if_false, List.lookup_cons]
      by_cases hq : k2 = pk
      · subst hq
        simp [List.lookup_cons]
      · have hb3 : (k2 == pk) = false := beq_eq_false_iff_ne.mpr hq
        simp only [hb3]
        exact ih

/-- The sampling loop always reports an index of a live key: the first
iteration replaces the zero-initialised selection because the zero time is
`IsZero`. -/
theorem pickVictim_valid (keys : List CacheKey) (items : List (CacheKey × MemoryCacheEntry))
    (now : Int) (hne : keys ≠ []) :
    ∀ (fuel : Nat) (rs : List Nat) (k : CacheKey) (idx : Nat) (oldest : Int),
      ((idx < keys.length ∧ keys.getD idx 0 = k) ∨ (oldest = 0 ∧ 1 ≤ fuel)) →
      (pickVictim keys items now fuel rs (k, idx, oldest)).2 < keys.length ∧
        keys.getD (pickVictim keys items now fuel rs (k, idx, oldest)).2 0 =
          (pickVictim keys items now fuel rs (k, idx, oldest)).1 := by
  have hpos : 0 < keys.length := List.length_pos.mpr hne
  intro fuel
  induction fuel with
  | zero =>
    intro rs k idx oldest hinit
    rcases hinit with ⟨h1, h2⟩ | ⟨_, h2⟩
    · exact ⟨h1, h2⟩
    · omega
  | succ m ih =>
    intro rs k idx oldest hinit
    unfold pickVictim
    simp only []
    by_cases hexp : (lookupEntry items (keys.getD (rs.headD 0 % keys.length) 0)).expiresAt < now
    · rw [if_pos hexp]
      exact ⟨Nat.mod_lt _ hpos, rfl⟩
    · rw [if_neg hexp]
      by_cases hupd : (lookupEntry items (keys.getD (rs.headD 0 % keys.length) 0)).lastAccessedAt
          < oldest ∨ oldest = 0
      · rw [if_pos hupd]
        exact ih rs.tail _ _ _ (Or.inl ⟨Nat.mod_lt _ hpos, rfl⟩)
      · rw [if_neg hupd]
        rcases hinit with ⟨h1, h2⟩ | ⟨h0, _⟩
        · exact ih rs.tail _ _ _ (Or.inl ⟨h1, h2⟩)
        · exact absurd (Or.inr h0) hupd

/-- Eviction on a non-empty coherent cache stays coherent and removes exactly
one key. -/
theorem evictOldestItem_WF (c : MemoryCache) (now : Int) (rs : List Nat)
    (hwf : c.WF) (hne : c.keys ≠ []) :
    (evictOldestItem c now rs).WF ∧
      (evictOldestItem c now rs).keys.length = c.keys.length - 1 := by
  obtain ⟨hperm, hnd, hsize⟩ := hwf
  have hpick := pickVictim_valid c.keys c.items now hne 5 rs 0 0 0 (Or.inr ⟨rfl, by omega⟩)
  unfold evictOldestItem
  rw [if_neg hne]
  simp only []
  constructor
  · refine ⟨?_, ?_, ?_⟩
    · rw [mapFst_assocDel]
      have h1 := hperm.erase (pickVictim c.keys c.items now 5 rs (0, 0, 0)).1
      have h2 := eraseIdx_perm_erase c.keys (pickVictim c.keys c.items now 5 rs (0, 0, 0)).2
        (0 : CacheKey) hpick.1
      rw [hpick.2] at h2
      have h3 := swapRemove_perm_eraseIdx c.keys
        (pickVictim c.keys c.items now 5 rs (0, 0, 0)).2 (0 : CacheKey) hpick.1
      exact (h1.trans h2.symm).trans h3.symm
    · rw [mapFst_assocDel]
      exact hnd.erase _
    · rw [sumLens_assocDel, hsize]
  · simp only [List.length_take, List.length_set]
    omega

/-- The eviction loop, fuelled by the key count, ends coherent with either the
size within the limit or the cache empty. -/
theorem evictLoop_spec (limit now : Int) :
    ∀ (fuel : Nat) (oracle : List (List Nat)) (c : MemoryCache),
      c.WF → c.keys.length ≤ fuel →
      (evictLoop limit now fuel oracle c).WF ∧
        ((evictLoop limit now fuel oracle c).size ≤ limit ∨
          (evictLoop limit now fuel oracle c).keys = []) := by
  intro fuel
  induction fuel with
  | zero =>
    intro oracle c hwf hlen
    have hk : c.keys = [] := List.eq_nil_of_length_eq_zero (by omega)
    exact ⟨hwf, Or.inr hk⟩
  | succ m ih =>
    intro oracle c hwf hlen
    unfold evictLoop
    by_cases hcond : limit < c.size ∧ c.keys ≠ []
    · rw [if_pos hcond]
      have he := evictOldestItem_WF c now (oracle.headD []) hwf hcond.2
      have hk : c.keys.length ≠ 0 := fun h0 => hcond.2 (List.eq_nil_of_length_eq_zero h0)
      exact ih oracle.tail _ he.1 (by omega)
    · rw [if_neg hcond]
      refine ⟨hwf, ?_⟩
      by_cases hs : limit < c.size
      · by_cases hk : c.keys = []
        · exact Or.inr hk
        · exact absurd ⟨hs, hk⟩ hcond
      · exact Or.inl (by omega)

/-- Coherence forces an empty cache to have zero tracked size. -/
theorem wf_keys_nil_size (c : MemoryCache) (hwf : c.WF) (hk : c.keys = []) :
    c.size = 0 := by
  have h1 : (c.items.map Prod.fst).Perm [] := hk ▸ hwf.1
  have h2 : c.items.map Prod.fst = [] := List.Perm.eq_nil h1
  have h3 : c.items = [] := List.map_eq_nil_iff.mp h2
  rw [hwf.2.2, h3]
  rfl

/-- An eviction loop starting within the limit does nothing. -/
theorem evictLoop_noop (limit now : Int) (fuel : Nat) (oracle : List (List Nat))
    (c : MemoryCache) (h : c.size ≤ limit) :
    evictLoop limit now fuel oracle c = c := by
  cases fuel with
  | zero => rfl
  | succ m =>
    unfold evictLoop
    rw [if_neg (fun hc => absurd h (by omega))]

/-- Claim C4: an oversized write leaves the store unchanged; otherwise the
store stays coherent with total tracked size at most the capacity, and when
the new item already fits no existing entry is evicted. -/
theorem claim_C4 (c : MemoryCache) (key : CacheKey) (value : List Nat)
    (expiresAt : Int) (oracle : List (List Nat)) (now : Int) (hwf : c.WF) :
    (((value.length : Int) > c.maxItemSize ∨ (value.length : Int) > c.capacity) →
      c.Set key value expiresAt oracle now = c) ∧
    (¬((value.length : Int) > c.maxItemSize ∨ (value.length : Int) > c.capacity) →
      (c.Set key value expiresAt oracle now).WF ∧
      sumLens (c.Set key value expiresAt oracle now).items ≤ c.capacity ∧
      (c.size ≤ c.capacity - (value.length : Int) →
        ∀ p ∈ c.items, p.1 ≠ key →
          (c.Set key value expiresAt oracle now).items.lookup p.1 = some p.2)) := by
  constructor
  · intro hbig
    unfold MemoryCache.Set
    rw [if_pos hbig]
  · intro hfit
    have hcap : (value.length : Int) ≤ c.capacity := by
      by_contra hx
      exact hfit (Or.inr (by omega))
    have hlenpos : (0 : Int) ≤ (value.length : Int) := by positivity
    simp only [MemoryCache.Set]
    rw [if_neg hfit]
    have hloop := evictLoop_spec (c.capacity - (value.length : Int)) now
      c.keys.length oracle c hwf (le_refl _)
    set c1 := evictLoop (c.capacity - (value.length : Int)) now c.keys.length oracle c
      with hc1
    obtain ⟨⟨hperm1, hnd1, hsize1⟩, hbound1⟩ := hloop
    have hsz1 : c1.size ≤ c.capacity - (value.length : Int) := by
      rcases hbound1 with h | h
      · exact h
      · rw [wf_keys_nil_size c1 ⟨hperm1, hnd1, hsize1⟩ h]
        omega
    by_cases hlk : (c1.items.lookup key).isSome = true
    · rw [if_pos hlk]
      have hL : (0 : Int) ≤ ((lookupEntry c1.items key).value.length : Int) := by positivity
      refine ⟨⟨?_, ?_, ?_⟩, ?_, ?_⟩
      · show (assocSet c1.items key ⟨now, expiresAt, value⟩).map Prod.fst |>.Perm c1.keys
        rw [mapFst_assocSet_mem c1.items key _ hlk]
        exact hperm1
      · show (assocSet c1.items key ⟨now, expiresAt, value⟩).map Prod.fst |>.Nodup
        rw [mapFst_assocSet_mem c1.items key _ hlk]
        exact hnd1
      · show c1.size - ((lookupEntry c1.items key).value.length : Int) +
            (value.length : Int) = sumLens (assocSet c1.items key ⟨now, expiresAt, value⟩)
        rw [sumLens_assocSet, hsize1]
      · show sumLens (assocSet c1.items key ⟨now, expiresAt, value⟩) ≤ c.capacity
        rw [sumLens_assocSet]
        rw [hsize1] at hsz1
        have hg : ((({ lastAccessedAt := now, expiresAt := expiresAt, value := value } :
            MemoryCacheEntry).value.length : Int)) = (value.length : Int) := rfl
        omega
      · intro hnoev p hp hne
        have hno : evictLoop (c.capacity - (value.length : Int)) now c.keys.length oracle c
            = c := evictLoop_noop _ now _ oracle c hnoev
        show (assocSet c1.items key ⟨now, expiresAt, value⟩).lookup p.1 = some p.2
        rw [lookup_assocSet_ne c1.items key p.1 _ hne, hc1, hno]
        exact lookup_of_mem_nodup p.1 p.2 c.items hwf.2.1 (by simpa using hp)
    · rw [if_neg hlk]
      have hlknone : c1.items.lookup key = none := by
        cases hv : c1.items.lookup key
        · rfl
        · rw [hv] at hlk
          simp at hlk
      have hnotmem := lookup_none_not_mem c1.items key hlknone
      refine ⟨⟨?_, ?_, ?_⟩, ?_, ?_⟩
      · show (assocSet c1.items key ⟨now, expiresAt, value⟩).map Prod.fst |>.Perm
            (c1.keys ++ [key])
        rw [mapFst_assocSet_new c1.items key _ hlknone]
        exact hperm1.append_right [key]
      · show (assocSet c1.items key ⟨now, expiresAt, value⟩).map Prod.fst |>.Nodup
        rw [mapFst_assocSet_new c1.items key _ hlknone]
        rw [List.nodup_append]
        refine ⟨hnd1, by simp, ?_⟩
        intro a ha hmem
        simp only [List.mem_singleton] at hmem
        exact hnotmem (hmem ▸ ha)
      · show c1.size + (value.length : Int) =
            sumLens (assocSet c1.items key ⟨now, expiresAt, value⟩)
        rw [sumLens_assocSet, hsize1]
        simp [lookupEntry, hlknone]
      · show sumLens (assocSet c1.items key ⟨now, expiresAt, value⟩) ≤ c.capacity
        rw [sumLens_assocSet]
        rw [hsize1] at hsz1
        simp only [lookupEntry, hlknone, Option.getD_none]
        omega
      · intro hnoev p hp hne
        have hno : evictLoop (c.capacity - (value.length : Int)) now c.keys.length oracle c
            = c := evictLoop_noop _ now _ oracle c hnoev
        show (assocSet c1.items key ⟨now, expiresAt, value⟩).lookup p.1 = some p.2
        rw [lookup_assocSet_ne c1.items key p.1 _ hne, hc1, hno]
        exact lookup_of_mem_nodup p.1 p.2 c.items hwf.2.1 (by simpa using hp)

/-- Witness for C4: a concrete bounded cache accepts a fitting item, stays
coherent and within capacity, and keeps the other entries. -/
theorem claim_C4_witness :
    ((⟨10, 5, 4, [11, 12], [(11, ⟨1, 60, [9, 9]⟩), (12, ⟨2, 60, [8, 8]⟩)]⟩ :
        MemoryCache).Set 13 [1, 2, 3] 100 [] 50).WF ∧
    sumLens ((⟨10, 5, 4, [11, 12], [(11, ⟨1, 60, [9, 9]⟩), (12, ⟨2, 60, [8, 8]⟩)]⟩ :
        MemoryCache).Set 13 [1, 2, 3] 100 [] 50).items ≤ 10 ∧
    ((⟨10, 5, 4, [11, 12], [(11, ⟨1, 60, [9, 9]⟩), (12, ⟨2, 60, [8, 8]⟩)]⟩ :
        MemoryCache).Set 13 [1, 2, 3] 100 [] 50).items.lookup 11 = some ⟨1, 60, [9, 9]⟩ := by
  have h := claim_C4
    ⟨10, 5, 4, [11, 12], [(11, ⟨1, 60, [9, 9]⟩), (12, ⟨2, 60, [8, 8]⟩)]⟩
    13 [1, 2, 3] 100 [] 50 ⟨by decide, by decide, by decide⟩
  have h2 := h.2 (by decide)
  exact ⟨h2.1, h2.2.1, h2.2.2 (by decide) (11, ⟨1, 60, [9, 9]⟩) (by decide) (by decide)⟩

/-- Replacing values under one key does not affect other keys' lookups. -/
theorem lookup_mapReplace_ne (t : Header) (ck v q : String) (hne : q ≠ ck) :
    (t.map (fun p => if p.1 == ck then (p.1, [v]) else p)).lookup q = t.lookup q := by
  induction t with
  | nil => rfl
  | cons p t ih =>
    obtain ⟨pk, pv⟩ := p
    simp only [List.map_cons]
    by_cases hp : pk = ck
    · have hb : (((pk, pv) : String × List String).1 == ck) = true := beq_iff_eq.mpr hp
      rw [if_pos hb]
      have hbq : (q == pk) = false :=
        beq_eq_false_iff_ne.mpr (fun h => hne (h.trans hp))
      simp only [List.lookup_cons, hbq]
      exact ih
    · have hb : (((pk, pv) : String × List String).1 == ck) = false :=
        beq_eq_false_iff_ne.mpr hp
      rw [if_neg (by simp [hb])]
      by_cases hq : q = pk
      · subst hq
        simp [List.lookup_cons]
      · have hbq : (q == pk) = false := beq_eq_false_iff_ne.mpr hq
        simp only [List.lookup_cons, hbq]
        exact ih

/-- Replacing values under a stored key makes its lookup the new value. -/
theorem lookup_mapReplace_self (t : Header) (ck v : String)
    (hs : (t.lookup ck).isSome = true) :
    (t.map (fun p => if p.1 == ck then (p.1, [v]) else p)).lookup ck = some [v] := by
  induction t with
  | nil => simp [List.lookup] at hs
  | cons p t ih =>
    obtain ⟨pk, pv⟩ := p
    simp only [List.map_cons]
    by_cases hp : pk = ck
    · have hb : (((pk, pv) : String × List String).1 == ck) = true := beq_iff_eq.mpr hp
      rw [if_pos hb]
      have hb2 : (ck == pk) = true := beq_iff_eq.mpr hp.symm
      simp [List.lookup_cons, hb2]
    · have hb : (((pk, pv) : String × List String).1 == ck) = false :=
        beq_eq_false_iff_ne.mpr hp
      rw [if_neg (by simp [hb])]
      have hb2 : (ck == pk) = false := beq_eq_false_iff_ne.mpr (fun he => hp he.symm)
      simp only [List.lookup_cons, hb2] at hs
      simp only [List.lookup_cons, hb2]
      exact ih hs

/-- Appending a pair under a fresh key does not affect other keys' lookups. -/
theorem lookup_append_single_ne (t : Header) (ck v q : String) (hne : q ≠ ck) :
    (t ++ [(ck, [v])]).lookup q = t.lookup q := by
  induction t with
  | nil =>
    have hbq : (q == ck) = false := beq_eq_false_iff_ne.mpr hne
    simp [List.lookup, List.lookup_cons, hbq]
  | cons p t ih =>
    obtain ⟨pk, pv⟩ := p
    by_cases hq : q = pk
    · subst hq
      simp [List.lookup_cons]
    · have hbq : (q == pk) = false := beq_eq_false_iff_ne.mpr hq
      simp [List.lookup_cons, hbq, ih]

/-- Appending a pair under a fresh key makes its lookup the new value. -/
theorem lookup_append_single_self (t : Header) (ck v : String) (hn : t.lookup ck = none) :
    (t ++ [(ck, [v])]).lookup ck = some [v] := by
  induction t with
  | nil => simp [List.lookup_cons]
  | cons p t ih =>
    obtain ⟨pk, pv⟩ := p
    by_cases hp : ck = pk
    · subst hp
      simp [List.lookup_cons] at hn
    · have hb : (ck == pk) = false := beq_eq_false_iff_ne.mpr hp
      simp only [List.lookup_cons, hb] at hn
      simp only [List.cons_append, List.lookup_cons, hb]
      exact ih hn

/-- After `Set`, the key holds exactly the single value. -/
theorem lookup_headerSet_self (h : Header) (k v : String) :
    (headerSet h k v).lookup (canonicalHeaderKey k) = some [v] := by
  unfold headerSet
  by_cases hs : (h.lookup (canonicalHeaderKey k)).isSome = true
  · rw [if_pos hs]
    exact lookup_mapReplace_self h (canonicalHeaderKey k) v hs
  · rw [if_neg hs]
    have hn : h.lookup (canonicalHeaderKey k) = none := by
      cases hv : h.lookup (canonicalHeaderKey k)
      · rfl
      · rw [hv] at hs
        simp at hs
    exact lookup_append_single_self h (canonicalHeaderKey k) v hn

/-- `Set` on one key leaves other keys' lookups unchanged. -/
theorem lookup_headerSet_ne (h : Header) (k v q : String)
    (hne : q ≠ canonicalHeaderKey k) :
    (headerSet h k v).lookup q = h.lookup q := by
  unfold headerSet
  by_cases hs : (h.lookup (canonicalHeaderKey k)).isSome = true
  · rw [if_pos hs]
    exact lookup_mapReplace_ne h (canonicalHeaderKey k) v q hne
  · rw [if_neg hs]
    exact lookup_append_single_ne h (canonicalHeaderKey k) v q hne

/-- Decimal digits of a natural number, fuelled by the number itself. -/
def natDecChars : Nat → Nat → List Char
  | 0, _ => []
  | f + 1, n =>
    if n < 10 then [Char.ofNat (48 + n)]
    else natDecChars f (n / 10) ++ [Char.ofNat (48 + n % 10)]

/-- Models `strconv.FormatInt(i, 10)`. -/
def intToDecString (i : Int) : String :=
  if i < 0 then "-" ++ ⟨natDecChars (i.natAbs + 1) i.natAbs⟩
  else ⟨natDecChars (i.natAbs + 1) i.natAbs⟩

/-- The plain response sink state seen by the client: headers, the first
written status, and the accumulated body. -/
structure RespWriter where
  header : Header
  status : Option Int
  body : List Nat
deriving Repr, DecidableEq

/-- Models `ResponseWriter.WriteHeader` on the plain sink: the first written
status wins (net/http ignores superfluous calls). -/
def RespWriter.writeHeaderW (w : RespWriter) (code : Int) : RespWriter :=
  match w.status with
  | some _ => w
  | none => { w with status := some code }

/-- Models `ResponseWriter.Write` on the plain sink: an implicit 200 header
write, then the bytes are appended to the body. -/
def RespWriter.writeW (w : RespWriter) (b : List Nat) : RespWriter :=
  let w1 := w.writeHeaderW 200
  { w1 with body := w1.body ++ b }

/-- A stat result for a file: its size and contents. -/
structure FileInfo where
  size : Int
  contents : List Nat
deriving Repr, DecidableEq

/-- The filesystem as seen through `os.Stat` and file reads: `none` when stat
fails. -/
def FileSystem := String → Option FileInfo

/-- Models the `sendfileWriter` state wrapping the underlying sink. -/
structure SendfileWriter where
  rw : RespWriter
  headerWritten : Bool
  sendingFile : Bool
deriving Repr, DecidableEq

/-- Models `sendfileWriter.setContentLength`: set Content-Length from stat, or
delete it when stat fails. -/
def SendfileWriter.setContentLength (w : SendfileWriter) (fs : FileSystem)
    (filename : String) : SendfileWriter :=
  match fs filename with
  | none => { w with rw := { w.rw with header := headerDel w.rw.header "Content-Length" } }
  | some fi =>
    { w with rw :=
        { w.rw with header := headerSet w.rw.header "Content-Length" (intToDecString fi.size) } }

/-- Models `sendfileWriter.serveFile`.  `http.ServeFile` is outside this
repository; modelled from the spec: the named file's contents are transferred
directly as the response body (a missing file becomes a not-found response). -/
def SendfileWriter.serveFile (w : SendfileWriter) (fs : FileSystem)
    (filename : String) : SendfileWriter :=
  let w1 := w.setContentLength fs filename
  match fs filename with
  | some fi => { w1 with rw := w1.rw.writeW fi.contents }
  | none => { w1 with rw := w1.rw.writeHeaderW 404 }

/-- Models `sendfileWriter.WriteHeader`: read and remove the `X-Sendfile`
header, mark the header written, and either serve the named file or forward
the status. -/
def SendfileWriter.WriteHeaderSF (w : SendfileWriter) (fs : FileSystem)
    (statusCode : Int) : SendfileWriter :=
  if headerGet w.rw.header "X-Sendfile" != "" then
    SendfileWriter.serveFile
      ⟨{ w.rw with header := headerDel w.rw.header "X-Sendfile" }, true, true⟩ fs
      (headerGet w.rw.header "X-Sendfile")
  else
    ⟨({ w.rw with header := headerDel w.rw.header "X-Sendfile" } : RespWriter).writeHeaderW
      statusCode, true, false⟩

/-- The result of a `Write` call on the sendfile sink. -/
inductive WriteOutcome where
  | wrote (n : Nat)
  | errBodyNotAllowed
deriving Repr, DecidableEq

/-- Models `sendfileWriter.Write`: an implicit header write on first use, then
rejection while a file is being sent, else pass-through. -/
def SendfileWriter.WriteSF (w : SendfileWriter) (fs : FileSystem) (b : List Nat) :
    SendfileWriter × WriteOutcome :=
  let w1 := if w.headerWritten then w else w.WriteHeaderSF fs 200
  if w1.sendingFile then (w1, .errBodyNotAllowed)
  else ({ w1 with rw := w1.rw.writeW b }, .wrote b.length)

/-- Models `SendfileHandler.ServeHTTP`'s request preparation: tag the request
with the capability marker when enabled, strip it when disabled; the sink is
wrapped exactly when enabled. -/
def SendfileHandler.prepare (enabled : Bool) (r : Request) : Request × Bool :=
  if enabled then
    ({ r with header := headerSet r.header "X-Sendfile-Type" "X-Sendfile" }, true)
  else
    ({ r with header := headerDel r.header "X-Sendfile-Type" }, false)

/-- Deleting one key leaves other keys' lookups unchanged. -/
theorem lookup_headerDel_ne (h : Header) (k q : String)
    (hne : q ≠ canonicalHeaderKey k) :
    (headerDel h k).lookup q = h.lookup q := by
  show (h.filter (fun p => p.1 != canonicalHeaderKey k)).lookup q = h.lookup q
  induction h with
  | nil => rfl
  | cons p t ih =>
    obtain ⟨pk, pv⟩ := p
    by_cases hp : pk = canonicalHeaderKey k
    · have hb : (pk != canonicalHeaderKey k) = false := by
        simp [bne, beq_iff_eq.mpr hp]
      have hbq : (q == pk) = false :=
        beq_eq_false_iff_ne.mpr (fun he => hne (he.trans hp))
      simp [List.filter, hb, List.lookup_cons, hbq, ih]
    · have hb : (pk != canonicalHeaderKey k) = true := bne_iff_ne.mpr hp
      by_cases hq : q = pk
      · subst hq
        simp [List.filter, hb, List.lookup_cons]
      · have hbq : (q == pk) = false := beq_eq_false_iff_ne.mpr hq
        simp [List.filter, hb, List.lookup_cons, hbq, ih]

/-- Serving an existing file sets its Content-Length on the headers. -/
theorem serveFile_some_header (rw0 : RespWriter) (hw sf : Bool) (fs : FileSystem)
    (fname : String) (fi : FileInfo) (hfs : fs fname = some fi) :
    (SendfileWriter.serveFile ⟨rw0, hw, sf⟩ fs fname).rw.header =
      headerSet rw0.header "Content-Length" (intToDecString fi.size) := by
  simp only [SendfileWriter.serveFile, SendfileWriter.setContentLength, hfs,
    RespWriter.writeW, RespWriter.writeHeaderW]
  cases rw0.status <;> rfl

/-- Serving an existing file appends its contents to the body. -/
theorem serveFile_some_body (rw0 : RespWriter) (hw sf : Bool) (fs : FileSystem)
    (fname : String) (fi : FileInfo) (hfs : fs fname = some fi) :
    (SendfileWriter.serveFile ⟨rw0, hw, sf⟩ fs fname).rw.body =
      rw0.body ++ fi.contents := by
  simp only [SendfileWriter.serveFile, SendfileWriter.setContentLength, hfs,
    RespWriter.writeW, RespWriter.writeHeaderW]
  cases rw0.status <;> rfl

/-- Serving a missing file deletes the Content-Length header and leaves the
body alone. -/
theorem serveFile_none_state (rw0 : RespWriter) (hw sf : Bool) (fs : FileSystem)
    (fname : String) (hfs : fs fname = none) :
    (SendfileWriter.serveFile ⟨rw0, hw, sf⟩ fs fname).rw.header =
      headerDel rw0.header "Content-Length" ∧
    (SendfileWriter.serveFile ⟨rw0, hw, sf⟩ fs fname).rw.body = rw0.body := by
  simp only [SendfileWriter.serveFile, SendfileWriter.setContentLength, hfs,
    RespWriter.writeHeaderW]
  cases rw0.status <;> simp

/-- Serving a file never changes the sink flags. -/
theorem serveFile_flags (rw0 : RespWriter) (hw sf : Bool) (fs : FileSystem)
    (fname : String) :
    (SendfileWriter.serveFile ⟨rw0, hw, sf⟩ fs fname).headerWritten = hw ∧
    (SendfileWriter.serveFile ⟨rw0, hw, sf⟩ fs fname).sendingFile = sf := by
  cases hfs : fs fname with
  | some fi =>
    simp only [SendfileWriter.serveFile, SendfileWriter.setContentLength, hfs,
      RespWriter.writeW, RespWriter.writeHeaderW]
    cases rw0.status <;> simp
  | none =>
    simp only [SendfileWriter.serveFile, SendfileWriter.setContentLength, hfs,
      RespWriter.writeHeaderW]
    cases rw0.status <;> simp

/-- Claim C9: with `X-Sendfile: fname` set by the handler, the header write
removes `X-Sendfile`, marks the file transfer, sets Content-Length from stat
(deleting it when stat fails), serves the file's literal contents as the
response body, and every subsequent body write is rejected with the
body-not-allowed error, leaving the sink unchanged. -/
theorem claim_C9 (w : SendfileWriter) (fs : FileSystem) (fname : String) (code : Int)
    (hf : headerGet w.rw.header "X-Sendfile" = fname) (hne : fname ≠ "") :
    headerValues (w.WriteHeaderSF fs code).rw.header "X-Sendfile" = [] ∧
    (w.WriteHeaderSF fs code).sendingFile = true ∧
    (∀ fi, fs fname = some fi →
      headerGet (w.WriteHeaderSF fs code).rw.header "Content-Length" =
        intToDecString fi.size ∧
      (w.WriteHeaderSF fs code).rw.body = w.rw.body ++ fi.contents) ∧
    (fs fname = none →
      headerValues (w.WriteHeaderSF fs code).rw.header "Content-Length" = []) ∧
    (∀ b, (w.WriteHeaderSF fs code).WriteSF fs b =
      (w.WriteHeaderSF fs code, .errBodyNotAllowed)) := by
  have hcond : (headerGet w.rw.header "X-Sendfile" != "") = true := by
    rw [hf]
    exact bne_iff_ne.mpr hne
  have hwh : w.WriteHeaderSF fs code =
      SendfileWriter.serveFile
        ⟨{ w.rw with header := headerDel w.rw.header "X-Sendfile" }, true, true⟩ fs fname := by
    unfold SendfileWriter.WriteHeaderSF
    rw [if_pos hcond, hf]
  have hflags := serveFile_flags
    { w.rw with header := headerDel w.rw.header "X-Sendfile" } true true fs fname
  have hxs : canonicalHeaderKey "X-Sendfile" ≠ canonicalHeaderKey "Content-Length" := by
    decide
  refine ⟨?_, ?_, ?_, ?_, ?_⟩
  · rw [hwh]
    cases hfs : fs fname with
    | some fi =>
      rw [serveFile_some_header _ _ _ _ _ _ hfs]
      unfold headerValues
      rw [lookup_headerSet_ne _ _ _ _ hxs]
      have := lookup_headerDel_self w.rw.header "X-Sendfile"
      show ((headerDel w.rw.header "X-Sendfile").lookup (canonicalHeaderKey "X-Sendfile")).getD
        [] = []
      rw [this]
      rfl
    | none =>
      rw [(serveFile_none_state _ _ _ _ _ hfs).1]
      unfold headerValues
      rw [lookup_headerDel_ne _ _ _ hxs]
      have := lookup_headerDel_self w.rw.header "X-Sendfile"
      show ((headerDel w.rw.header "X-Sendfile").lookup (canonicalHeaderKey "X-Sendfile")).getD
        [] = []
      rw [this]
      rfl
  · rw [hwh]
    exact hflags.2
  · intro fi hfs
    rw [hwh]
    constructor
    · rw [serveFile_some_header _ _ _ _ _ _ hfs]
      unfold headerGet
      rw [lookup_headerSet_self]
    · rw [serveFile_some_body _ _ _ _ _ _ hfs]
  · intro hfs
    rw [hwh]
    rw [(serveFile_none_state _ _ _ _ _ hfs).1]
    unfold headerValues
    rw [lookup_headerDel_self]
    rfl
  · intro b
    rw [hwh]
    unfold SendfileWriter.WriteSF
    rw [if_pos hflags.1, if_pos hflags.2]

/-- Witness for C9: a concrete sink with `X-Sendfile: /tmp/file.txt` and a
three-byte file serves the file bytes with Content-Length 3 and rejects later
writes. -/
theorem claim_C9_witness :
    headerValues
      ((⟨⟨[("X-Sendfile", ["/tmp/file.txt"])], none, []⟩, false, false⟩ :
          SendfileWriter).WriteHeaderSF
        (fun n => if n = "/tmp/file.txt" then some (⟨3, [104, 105, 10]⟩ : FileInfo) else none)
        200).rw.header "X-Sendfile" = [] ∧
    headerGet
      ((⟨⟨[("X-Sendfile", ["/tmp/file.txt"])], none, []⟩, false, false⟩ :
          SendfileWriter).WriteHeaderSF
        (fun n => if n = "/tmp/file.txt" then some (⟨3, [104, 105, 10]⟩ : FileInfo) else none)
        200).rw.header "Content-Length" = intToDecString 3 ∧
    ((⟨⟨[("X-Sendfile", ["/tmp/file.txt"])], none, []⟩, false, false⟩ :
        SendfileWriter).WriteHeaderSF
      (fun n => if n = "/tmp/file.txt" then some (⟨3, [104, 105, 10]⟩ : FileInfo) else none)
      200).rw.body = [] ++ [104, 105, 10] ∧
    (((⟨⟨[("X-Sendfile", ["/tmp/file.txt"])], none, []⟩, false, false⟩ :
        SendfileWriter).WriteHeaderSF
      (fun n => if n = "/tmp/file.txt" then some (⟨3, [104, 105, 10]⟩ : FileInfo) else none)
      200).WriteSF
      (fun n => if n = "/tmp/file.txt" then some (⟨3, [104, 105, 10]⟩ : FileInfo) else none)
      [1, 2]).2 = .errBodyNotAllowed := by
  have h := claim_C9
    ⟨⟨[("X-Sendfile", ["/tmp/file.txt"])], none, []⟩, false, false⟩
    (fun n => if n = "/tmp/file.txt" then some (⟨3, [104, 105, 10]⟩ : FileInfo) else none)
    "/tmp/file.txt" 200 (by decide) (by decide)
  refine ⟨h.1, ?_, ?_, ?_⟩
  · exact (h.2.2.1 ⟨3, [104, 105, 10]⟩ (by simp)).1
  · exact (h.2.2.1 ⟨3, [104, 105, 10]⟩ (by simp)).2
  · rw [congrArg Prod.snd (h.2.2.2.2 [1, 2])]

/-- Models `Variant.SetResponseHeader`. -/
def Variant.SetResponseHeader (v : Variant) (header : Header) : Variant :=
  { v with headerNames := parseVaryHeader header }

/-- Models `Variant.Matches`: every tracked header's stored value equals the
request's current value. -/
def Variant.Matches (v : Variant) (responseHeader : Header) : Bool :=
  v.headerNames.all
    (fun name => headerGet responseHeader name == headerGet v.r.header name)

/-- Models `Variant.VariantHeader`: the tracked headers with the request's
current values. -/
def Variant.VariantHeader (v : Variant) : Header :=
  v.headerNames.foldl (fun h name => headerSet h name (headerGet v.r.header name)) []

/-- Modelled from the spec: `Variant.HeaderNames` is called by the cache
handler but its definition is not among the sources; per the handler's use and
the spec's base-key-to-header-name index it returns the variant's current
header-name list. -/
def Variant.HeaderNames (v : Variant) : List String :=
  v.headerNames

/-- Modelled from the spec: `Variant.ApplyHeaderNames` is called by the cache
handler but its definition is not among the sources; per the handler's use it
installs a remembered header-name list so the variant key can be anticipated. -/
def Variant.ApplyHeaderNames (v : Variant) (names : List String) : Variant :=
  { v with headerNames := names }

/-- Models `CacheableResponse.wasNotModified`: the request's `If-None-Match`
list contains the response's ETag. -/
def CacheableResponse.wasNotModified (c : CacheableResponse) (r : Request) : Bool :=
  if headerGet c.HttpHeader "Etag" == "" then false
  else
    (strSplitOnChar ',' (headerGet r.header "If-None-Match")).any
      (fun etag => strTrimSpace etag == headerGet c.HttpHeader "Etag")

/-- Models `CacheableResponse.copyHeaders`: raw header assignment of all
stored headers, the `X-Cache` marker, then the status write. -/
def CacheableResponse.copyHeaders (c : CacheableResponse) (w : RespWriter)
    (wasHit : Bool) (statusCode : Int) : RespWriter :=
  let merged := c.HttpHeader.foldl (fun h p => headerSetRaw h p.1 p.2) w.header
  let tagged := headerSet merged "X-Cache" (if wasHit then "hit" else "miss")
  RespWriter.writeHeaderW { w with header := tagged } statusCode

/-- Models `CacheableResponse.WriteCachedResponse`: a 304 with headers only on
a conditional match, else the stored status, headers and body. -/
def CacheableResponse.WriteCachedResponse (c : CacheableResponse) (w : RespWriter)
    (r : Request) : RespWriter :=
  if c.wasNotModified r then c.copyHeaders w true 304
  else (c.copyHeaders w true c.StatusCode).writeW c.Body

/-- The downstream handler abstracted as the script of operations it performs
against its response sink. -/
inductive SinkOp where
  | setHeader (k v : String)
  | writeHeader (status : Int)
  | write (b : List Nat)
deriving Repr, DecidableEq

/-- The mutable state of a `CacheableResponse` used as a response writer: the
captured response, the stashing writer, the header flag and the wrapped
downstream sink. -/
structure CaptureState where
  resp : CacheableResponse
  stasher : StashingWriter
  headersWritten : Bool
  underlying : RespWriter
deriving Repr, DecidableEq

/-- Models `NewCacheableResponse`. -/
def NewCacheableResponse (w : RespWriter) (maxBodyLength : Int) : CaptureState :=
  ⟨⟨200, [], [], []⟩, NewStashingWriter maxBodyLength, false, w⟩

/-- Models `CacheableResponse.WriteHeader`. -/
def CaptureState.writeHeaderC (s : CaptureState) (statusCode : Int) : CaptureState :=
  { s with
    resp := { s.resp with StatusCode := statusCode }
    underlying := CacheableResponse.copyHeaders { s.resp with StatusCode := statusCode }
      s.underlying false statusCode
    headersWritten := true }

/-- Models `CacheableResponse.Write`: implicit 200 header write, then the
stashing write which also passes through to the wrapped sink. -/
def CaptureState.writeC (s : CaptureState) (b : List Nat) : CaptureState :=
  let s1 := if s.headersWritten then s else s.writeHeaderC 200
  { s1 with
    stasher := s1.stasher.WriteS b
    underlying := s1.underlying.writeW b }

/-- A handler mutation of the capture's header map (`cr.Header().Set`). -/
def CaptureState.setHeaderC (s : CaptureState) (k v : String) : CaptureState :=
  { s with resp := { s.resp with HttpHeader := headerSet s.resp.HttpHeader k v } }

/-- Running the downstream script against the capturing sink. -/
def runCapture (ops : List SinkOp) (s : CaptureState) : CaptureState :=
  ops.foldl
    (fun st op =>
      match op with
      | .setHeader k v => st.setHeaderC k v
      | .writeHeader code => st.writeHeaderC code
      | .write b => st.writeC b) s

/-- Running the downstream script against the plain sink (the bypass path). -/
def runPlain (ops : List SinkOp) (w : RespWriter) : RespWriter :=
  ops.foldl
    (fun wr op =>
      match op with
      | .setHeader k v => { wr with header := headerSet wr.header k v }
      | .writeHeader code => wr.writeHeaderW code
      | .write b => wr.writeW b) w

/-- Models `CacheHandler.shouldCacheRequest`. -/
def shouldCacheRequest (r : Request) : Bool :=
  (r.Method == "GET" || r.Method == "HEAD") &&
    !(headerGet r.header "Connection" == "Upgrade" ||
      headerGet r.header "Upgrade" == "websocket") &&
    !(headerGet r.header "Range" != "")

/-- Models `CacheHandler.lookupCacheEntry`: a stored entry that decodes; a
decode failure degrades to a miss. -/
def lookupCacheEntry (cacheGet : CacheKey → Option (List Nat)) (key : CacheKey) :
    Option CacheableResponse :=
  match cacheGet key with
  | none => none
  | some bytes =>
    match CacheableResponseFromBuffer bytes with
    | .ok resp => some resp
    | .error _ => none

/-- Models `CacheHandler.loadVariantHeaders`. -/
def loadVariantHeaders (varyIndex : List (CacheKey × List String)) (baseKey : CacheKey) :
    List String :=
  (varyIndex.lookup baseKey).getD []

/-- Go map assignment on the variant-header index. -/
def assocSetVI : List (CacheKey × List String) → CacheKey → List String →
    List (CacheKey × List String)
  | [], k, v => [(k, v)]
  | p :: t, k, v => if p.1 == k then (k, v) :: t else p :: assocSetVI t k v

/-- Models `CacheHandler.rememberVariantHeaders`: an empty name list deletes
the index entry, a non-empty one stores a copy. -/
def rememberVariantHeaders (varyIndex : List (CacheKey × List String))
    (baseKey : CacheKey) (headers : List String) : List (CacheKey × List String) :=
  if headers.isEmpty then varyIndex.eraseP (fun p => p.1 == baseKey)
  else assocSetVI varyIndex baseKey headers

/-- The tuple returned by `fetchFromCache`, with the variant's mutation made
explicit. -/
structure FetchResult where
  response : CacheableResponse
  key : CacheKey
  found : Bool
  variant : Variant
deriving Repr, DecidableEq

/-- Models `CacheHandler.fetchFromCache`: apply remembered variant headers,
look up the variant key, then fall back to the base key. -/
def fetchFromCache (cacheGet : CacheKey → Option (List Nat))
    (varyIndex : List (CacheKey × List String)) (variant : Variant)
    (baseKey : CacheKey) : FetchResult :=
  let headerNames := loadVariantHeaders varyIndex baseKey
  let variant1 := if headerNames.length > 0 then variant.ApplyHeaderNames headerNames
    else variant
  let key := variant1.CacheKey
  match lookupCacheEntry cacheGet key with
  | some resp => ⟨resp, key, true, variant1⟩
  | none =>
    if key ≠ baseKey then
      match lookupCacheEntry cacheGet baseKey with
      | some resp => ⟨resp, baseKey, true, variant1⟩
      | none => ⟨⟨0, [], [], []⟩, key, false, variant1⟩
    else ⟨⟨0, [], [], []⟩, key, false, variant1⟩

/-- What a `ServeHTTP` call produced: the client-visible sink, whether the
downstream handler ran, the updated variant index, and the cache stores
performed. -/
structure ServeResult where
  w : RespWriter
  nextCalled : Bool
  varyIndex : List (CacheKey × List String)
  stores : List (CacheKey × List Nat × Int)
deriving Repr, DecidableEq

/-- Models `CacheHandler.ServeHTTP` with the injected cache's `Get` as a
function, the handler's vary index as explicit state, and the downstream
handler as a sink script. -/
def CacheHandler.ServeHTTP (cacheGet : CacheKey → Option (List Nat))
    (varyIndex : List (CacheKey × List String)) (maxBodySize : Int)
    (next : Request → List SinkOp) (now : Int) (r : Request) (w : RespWriter) :
    ServeResult :=
  let baseKey := Variant.CacheKey (NewVariant r)
  let f1 := fetchFromCache cacheGet varyIndex (NewVariant r) baseKey
  let step2 : FetchResult × List (CacheKey × List String) :=
    if f1.found then
      let v2 := f1.variant.SetResponseHeader f1.response.HttpHeader
      let vi2 := rememberVariantHeaders varyIndex baseKey v2.HeaderNames
      if !(v2.Matches f1.response.VariantHeader) then
        (fetchFromCache cacheGet vi2 v2 baseKey, vi2)
      else ({ f1 with variant := v2 }, vi2)
    else (f1, varyIndex)
  let f2 := step2.1
  let varyIndex2 := step2.2
  if f2.found then
    ⟨f2.response.WriteCachedResponse w r, false, varyIndex2, []⟩
  else if !(shouldCacheRequest r) then
    ⟨runPlain (next r) { w with header := headerSet w.header "X-Cache" "bypass" }, true,
      varyIndex2, []⟩
  else
    let cap := runCapture (next r) (NewCacheableResponse w maxBodySize)
    let st := cap.resp.CacheStatus cap.stasher now
    if st.1 then
      let v3 := f2.variant.SetResponseHeader cap.resp.HttpHeader
      let vi3 := rememberVariantHeaders varyIndex2 baseKey v3.HeaderNames
      ⟨cap.underlying, true, vi3,
        [(v3.CacheKey,
          CacheableResponse.ToBuffer { cap.resp with VariantHeader := v3.VariantHeader }
            cap.stasher now, st.2)]⟩
    else ⟨cap.underlying, true, varyIndex2, []⟩

/-- Copying headers does not touch the body. -/
theorem copyHeaders_body (c : CacheableResponse) (w : RespWriter) (hit : Bool)
    (code : Int) : (c.copyHeaders w hit code).body = w.body := by
  simp only [CacheableResponse.copyHeaders, RespWriter.writeHeaderW]
  cases hst : w.status <;> simp [hst]

/-- A body write appends exactly its bytes. -/
theorem writeW_body (w : RespWriter) (b : List Nat) :
    (w.writeW b).body = w.body ++ b := by
  simp only [RespWriter.writeW, RespWriter.writeHeaderW]
  cases hst : w.status <;> simp [hst]

/-- Claim C10: when the first cache fetch finds a decodable entry whose
variant matches the request, `ServeHTTP` replays the cached response and
returns — the downstream handler is not called and nothing is stored — without
consulting the request-cacheability rules, so in particular a request carrying
a `Range` or upgrade header still receives the full cached body. -/
theorem claim_C10 (cacheGet : CacheKey → Option (List Nat))
    (varyIndex : List (CacheKey × List String)) (maxBodySize : Int)
    (next : Request → List SinkOp) (now : Int) (r : Request) (w : RespWriter)
    (hfound : (fetchFromCache cacheGet varyIndex (NewVariant r)
      (Variant.CacheKey (NewVariant r))).found = true)
    (hmatch : (((fetchFromCache cacheGet varyIndex (NewVariant r)
          (Variant.CacheKey (NewVariant r))).variant.SetResponseHeader
          (fetchFromCache cacheGet varyIndex (NewVariant r)
            (Variant.CacheKey (NewVariant r))).response.HttpHeader).Matches
        (fetchFromCache cacheGet varyIndex (NewVariant r)
          (Variant.CacheKey (NewVariant r))).response.VariantHeader) = true) :
    (CacheHandler.ServeHTTP cacheGet varyIndex maxBodySize next now r w).w =
      (fetchFromCache cacheGet varyIndex (NewVariant r)
        (Variant.CacheKey (NewVariant r))).response.WriteCachedResponse w r ∧
    (CacheHandler.ServeHTTP cacheGet varyIndex maxBodySize next now r w).nextCalled =
      false ∧
    (CacheHandler.ServeHTTP cacheGet varyIndex maxBodySize next now r w).stores = [] ∧
    ((fetchFromCache cacheGet varyIndex (NewVariant r)
        (Variant.CacheKey (NewVariant r))).response.wasNotModified r = false →
      (CacheHandler.ServeHTTP cacheGet varyIndex maxBodySize next now r w).w.body =
        w.body ++ (fetchFromCache cacheGet varyIndex (NewVariant r)
          (Variant.CacheKey (NewVariant r))).response.Body) := by
  have hserve : CacheHandler.ServeHTTP cacheGet varyIndex maxBodySize next now r w =
      ⟨(fetchFromCache cacheGet varyIndex (NewVariant r)
          (Variant.CacheKey (NewVariant r))).response.WriteCachedResponse w r, false,
        rememberVariantHeaders varyIndex (Variant.CacheKey (NewVariant r))
          ((fetchFromCache cacheGet varyIndex (NewVariant r)
              (Variant.CacheKey (NewVariant r))).variant.SetResponseHeader
            (fetchFromCache cacheGet varyIndex (NewVariant r)
              (Variant.CacheKey (NewVariant r))).response.HttpHeader).HeaderNames, []⟩ := by
    simp only [CacheHandler.ServeHTTP, hfound, hmatch, if_true, Bool.not_true,
      Bool.false_eq_true, if_false]
  refine ⟨by rw [hserve], by rw [hserve], by rw [hserve], ?_⟩
  intro hnm
  rw [hserve]
  show ((fetchFromCache cacheGet varyIndex (NewVariant r)
      (Variant.CacheKey (NewVariant r))).response.WriteCachedResponse w r).body =
    w.body ++ (fetchFromCache cacheGet varyIndex (NewVariant r)
      (Variant.CacheKey (NewVariant r))).response.Body
  unfold CacheableResponse.WriteCachedResponse
  rw [if_neg (by simp [hnm]), writeW_body, copyHeaders_body]

/-- Witness for C10: a GET request carrying a `Range` header (normally not a
cache candidate) is served the full cached body without the downstream handler
running. -/
theorem claim_C10_witness :
    (CacheHandler.ServeHTTP
      (fun k => if k = Variant.CacheKey (NewVariant
          ⟨"GET", ⟨"/resource", ""⟩, "example.com", [("Range", ["bytes=0-1"])]⟩) then
        some (encCacheableResponse
          ⟨200, [("Cache-Control", ["public, max-age=60"])], [112, 97], []⟩)
      else none)
      [] 1024 (fun _ => []) 5
      ⟨"GET", ⟨"/resource", ""⟩, "example.com", [("Range", ["bytes=0-1"])]⟩
      ⟨[], none, []⟩).nextCalled = false ∧
    (CacheHandler.ServeHTTP
      (fun k => if k = Variant.CacheKey (NewVariant
          ⟨"GET", ⟨"/resource", ""⟩, "example.com", [("Range", ["bytes=0-1"])]⟩) then
        some (encCacheableResponse
          ⟨200, [("Cache-Control", ["public, max-age=60"])], [112, 97], []⟩)
      else none)
      [] 1024 (fun _ => []) 5
      ⟨"GET", ⟨"/resource", ""⟩, "example.com", [("Range", ["bytes=0-1"])]⟩
      ⟨[], none, []⟩).stores = [] ∧
    (CacheHandler.ServeHTTP
      (fun k => if k = Variant.CacheKey (NewVariant
          ⟨"GET", ⟨"/resource", ""⟩, "example.com", [("Range", ["bytes=0-1"])]⟩) then
        some (encCacheableResponse
          ⟨200, [("Cache-Control", ["public, max-age=60"])], [112, 97], []⟩)
      else none)
      [] 1024 (fun _ => []) 5
      ⟨"GET", ⟨"/resource", ""⟩, "example.com", [("Range", ["bytes=0-1"])]⟩
      ⟨[], none, []⟩).w.body = [] ++ [112, 97] := by
  have h := claim_C10
    (fun k => if k = Variant.CacheKey (NewVariant
        ⟨"GET", ⟨"/resource", ""⟩, "example.com", [("Range", ["bytes=0-1"])]⟩) then
      some (encCacheableResponse
        ⟨200, [("Cache-Control", ["public, max-age=60"])], [112, 97], []⟩)
    else none)
    [] 1024 (fun _ => []) 5
    ⟨"GET", ⟨"/resource", ""⟩, "example.com", [("Range", ["bytes=0-1"])]⟩
    ⟨[], none, []⟩ (by decide) (by decide)
  refine ⟨h.2.1, h.2.2.1, ?_⟩
  have h4 := h.2.2.2 (by decide)
  have hbody : (fetchFromCache
      (fun k => if k = Variant.CacheKey (NewVariant
          ⟨"GET", ⟨"/resource", ""⟩, "example.com", [("Range", ["bytes=0-1"])]⟩) then
        some (encCacheableResponse
          ⟨200, [("Cache-Control", ["public, max-age=60"])], [112, 97], []⟩)
      else none)
      [] (NewVariant ⟨"GET", ⟨"/resource", ""⟩, "example.com", [("Range", ["bytes=0-1"])]⟩)
      (Variant.CacheKey (NewVariant
        ⟨"GET", ⟨"/resource", ""⟩, "example.com",
          [("Range", ["bytes=0-1"])]⟩))).response.Body = [112, 97] := by decide
  rw [hbody] at h4
  exact h4
